import Mathlib

/-!
Verification of the trace_generator repository (src/trace_generator/__init__.py and
src/trace_utils.py) against its specification.

Shallow embedding conventions:

* Python's global pseudorandom stream (the random module) is modelled by an explicit
  state RState carrying three streams: "floats" for random.random() draws, "ints" for
  the integer draws underlying random.randint / random.randrange / random.choice /
  random.shuffle, and "clock" for datetime.now() readings.  Each helper consumes one
  entry and advances the corresponding index.  Quantifying over RState corresponds to
  quantifying over seeds of the Python generator: any sequence of draws the Mersenne
  twister can produce is some RState, and every concrete RState assigns definite
  values to all draws.
* random.random() values are rationals; hypotheses 0 <= u (and u < 1 where needed)
  state the range guaranteed by the Python API.
* datetime values are rationals (seconds); timedelta addition is rational addition.
* Fallible Python code (raise / KeyError / StopIteration) is embedded with Except.
* find_longest_path and the hierarchy collection are recursive in Python; here they
  take an explicit fuel argument.  The generator instantiates the fuel with
  numServices + 1, which is shown (fuel-stability lemma below) to agree with every
  larger fuel on the connection maps the generator builds, matching the unbounded
  Python recursion wherever it terminates.
-/

/-- State of the pseudorandom source: three streams with cursor indices. -/
structure RState where
  floats : ℕ → ℚ
  ints : ℕ → ℕ
  clock : ℕ → ℚ
  fi : ℕ := 0
  ii : ℕ := 0
  ci : ℕ := 0

/-- Embedding of random.random(). -/
def randFloat (s : RState) : ℚ × RState :=
  (s.floats s.fi, { s with fi := s.fi + 1 })

/-- Embedding of the CPython primitive _randbelow(n): a uniform integer in [0, n).
The raw stream value is reduced mod n so that every concrete stream yields an
in-range draw, and every in-range draw is realised by some stream. -/
def randBelow (n : ℕ) (s : RState) : ℕ × RState :=
  (s.ints s.ii % n, { s with ii := s.ii + 1 })

/-- Embedding of random.randint(a, b) (both endpoints included). -/
def randIntR (a b : ℕ) (s : RState) : ℕ × RState :=
  (a + s.ints s.ii % (b - a + 1), { s with ii := s.ii + 1 })

/-- Embedding of datetime.now() / its timestamp, in seconds. -/
def nowQ (s : RState) : ℚ × RState :=
  (s.clock s.ci, { s with ci := s.ci + 1 })

/-- Embedding of random.choice on a list of strings: seq[_randbelow(len(seq))]. -/
def listChoice (l : List String) (s : RState) : String × RState :=
  let (j, s1) := randBelow l.length s
  (l.getD j "", s1)

/-- One Fisher-Yates step: exchange positions i and j. -/
def swapL (l : List α) (i j : ℕ) : List α :=
  match l.get? i, l.get? j with
  | some a, some b => (l.set i b).set j a
  | _, _ => l

/-- Embedding of random.shuffle (CPython Fisher-Yates):
for i in reversed(range(1, len(x))): j = _randbelow(i + 1); swap x[i], x[j]. -/
def shuffleL (l : List α) (s : RState) : List α × RState :=
  (List.range' 1 (l.length - 1)).reverse.foldl
    (fun acc i =>
      let (j, s1) := randBelow (i + 1) acc.2
      (swapL acc.1 i j, s1))
    (l, s)

/-- Service declaration (class ServiceConfig).  The pydantic pattern constraint on
the field service_type is not replayed here; the theorems that depend on it carry
explicit typing hypotheses. -/
structure ServiceConfig where
  name : String
  service_type : String
  connections : List String
deriving DecidableEq, Repr

/-- Span record (class Trace).  Timestamps are rational seconds. -/
structure Trace where
  trace_id : String
  service_name : String
  service_type : String
  start_time : ℚ
  end_time : ℚ
  status : String
  parent_trace_id : Option String
  metadata : List (String × String)
deriving DecidableEq, Repr

/-- Insertion into a Python dict rendered as an association list: a later binding of
an existing key replaces the value in place (keeping the key's first position),
otherwise the binding is appended. -/
def dictInsert (m : List (String × α)) (k : String) (v : α) : List (String × α) :=
  if m.any (fun p => p.1 = k) then
    m.map (fun p => if p.1 = k then (k, v) else p)
  else
    m ++ [(k, v)]

/-- Python dict lookup on the association-list rendering. -/
def dictGet : List (String × α) → String → Option α
  | [], _ => none
  | p :: ps, k => if p.1 = k then some p.2 else dictGet ps k

/-- The dict comprehension self.services = , built by iterating the input list. -/
def buildServicesDict (services : List ServiceConfig) : List (String × ServiceConfig) :=
  services.foldl (fun m svc => dictInsert m svc.name svc) []

/-- Class TraceGenerator after __init__ finished: the name-indexed service dict plus
the clamped randomization_level and num_groups. -/
structure TraceGenerator where
  services : List (String × ServiceConfig)
  randomization_level : ℚ
  num_groups : ℕ

/-- TraceGenerator._validate_connections: scan the dict values and fail on the first
connection naming a key absent from the dict. -/
def validateConnections (m : List (String × ServiceConfig)) : Except String Unit :=
  match m.findSome? (fun p =>
      p.2.connections.findSome? (fun conn =>
        if (dictGet m conn).isNone then some (p.2.name, conn) else none)) with
  | some (n, c) =>
      .error ("Service " ++ n ++ " connects to non-existent service " ++ c)
  | none => .ok ()

/-- TraceGenerator.__init__: build the dict, clamp randomization_level into [0, 1]
and num_groups to at least 1, then validate connections.  A validation failure is a
raised ValueError: nothing is returned. -/
def mkTraceGenerator (services : List ServiceConfig) (randomization_level : ℚ)
    (num_groups : ℤ) : Except String TraceGenerator :=
  let m := buildServicesDict services
  let g : TraceGenerator :=
    { services := m
      randomization_level := max 0 (min 1 randomization_level)
      num_groups := (max 1 num_groups).toNat }
  match validateConnections m with
  | .error e => .error e
  | .ok _ => .ok g

/-- TraceGenerator._generate_trace_id. -/
def generateTraceId (s : RState) : String × RState :=
  let (k, s1) := randIntR 1000 9999 s
  let (t, s2) := nowQ s1
  ("trace_" ++ toString k ++ "_" ++ toString t, s2)

/-- The base_durations dict in _generate_duration; access to a key outside the dict
is a Python KeyError, rendered as none. -/
def baseDurations (serviceType : String) : Option ℚ :=
  if serviceType = "proxy" then some 0.1
  else if serviceType = "web" then some 0.3
  else if serviceType = "database" then some 0.2
  else none

/-- TraceGenerator._generate_duration. -/
def generateDuration (g : TraceGenerator) (serviceType : String) (group : ℕ)
    (s : RState) : Except String (ℚ × RState) :=
  match baseDurations serviceType with
  | none => .error ("KeyError: " ++ serviceType)
  | some base_duration =>
    let group_factor : ℚ := 1 + ((group : ℚ) / (g.num_groups : ℚ)) * 0.5
    let (u, s1) := randFloat s
    let random_factor : ℚ := 1 + (u - 0.5) * g.randomization_level
    .ok (base_duration * group_factor * random_factor, s1)

/-- The success probability computed inside _generate_status. -/
def successProbability (group numGroups : ℕ) (randomizationLevel : ℚ) : ℚ :=
  (0.95 - ((group : ℚ) / (numGroups : ℚ)) * 0.1) * (1 - randomizationLevel)

/-- TraceGenerator._generate_status. -/
def generateStatus (g : TraceGenerator) (group : ℕ) (s : RState) : String × RState :=
  let (u, s1) := randFloat s
  (if u < successProbability group g.num_groups g.randomization_level
   then "success" else "error", s1)

/-- TraceGenerator._generate_metadata. -/
def generateMetadata (serviceType : String) (s : RState) :
    List (String × String) × RState :=
  if serviceType = "proxy" then
    let (m, s1) := listChoice ["GET", "POST", "PUT", "DELETE"] s
    let (v, s2) := randIntR 1 3 s1
    let (r, s3) := randIntR 1 100 s2
    ([("http_method", m),
      ("endpoint", "/api/v" ++ toString v ++ "/resource/" ++ toString r)], s3)
  else if serviceType = "web" then
    let (c, s1) := listChoice ["auth", "user", "order", "payment"] s
    let (o, s2) := listChoice ["process", "validate", "transform"] s1
    ([("component", c), ("operation", o)], s2)
  else if serviceType = "database" then
    let (q, s1) := listChoice ["SELECT", "INSERT", "UPDATE", "DELETE"] s
    let (t, s2) := listChoice ["users", "orders", "products", "inventory"] s1
    ([("query_type", q), ("table", t)], s2)
  else
    ([], s)

/-- TraceGenerator._create_trace: the manual single-span constructor.  Draw order
follows the source: group, datetime.now(), random.random() for the start offset,
then duration, status, metadata. -/
def createTrace (g : TraceGenerator) (traceId serviceName serviceType : String)
    (parent : Option String) (s : RState) : Except String (Trace × RState) :=
  let (group, s1) := randBelow g.num_groups s
  let (t0, s2) := nowQ s1
  let (u, s3) := randFloat s2
  let start_time := t0 + u * 3600
  match generateDuration g serviceType group s3 with
  | .error e => .error e
  | .ok (duration, s4) =>
    let (status, s5) := generateStatus g group s4
    let (metadata, s6) := generateMetadata serviceType s5
    .ok ({ trace_id := traceId
           service_name := serviceName
           service_type := serviceType
           start_time := start_time
           end_time := start_time + duration
           status := status
           parent_trace_id := parent
           metadata := metadata }, s6)

/-- The inner loop of generate_traces over the entry point's connections: each child
span starts at the running cursor and advances it by its own duration. -/
def genChildren (g : TraceGenerator) (group : ℕ) (rootId : String) :
    List String → List Trace → ℚ → RState → Except String (List Trace × ℚ × RState)
  | [], acc, cur, s => .ok (acc, cur, s)
  | connName :: rest, acc, cur, s =>
    match dictGet g.services connName with
    | none => .error ("KeyError: " ++ connName)
    | some connService =>
      match generateDuration g connService.service_type group s with
      | .error e => .error e
      | .ok (conn_duration, s1) =>
        let (cid, s2) := generateTraceId s1
        let (status, s3) := generateStatus g group s2
        let (metadata, s4) := generateMetadata connService.service_type s3
        let tr : Trace :=
          { trace_id := cid
            service_name := connService.name
            service_type := connService.service_type
            start_time := cur
            end_time := cur + conn_duration
            status := status
            parent_trace_id := some rootId
            metadata := metadata }
        genChildren g group rootId rest (acc ++ [tr]) (cur + conn_duration) s4

/-- One iteration of the generate_traces loop: group draw, root id, entry-point
search (next(...) raises StopIteration when no proxy-typed service exists), root
span, then one child span per connection of the entry point. -/
def genOne (g : TraceGenerator) (baseTime : ℚ) (s : RState) :
    Except String (List Trace × RState) :=
  let (group, s1) := randBelow g.num_groups s
  let (trace_id, s2) := generateTraceId s1
  match (g.services.map Prod.snd).find? (fun svc => svc.service_type = "proxy") with
  | none => .error "StopIteration"
  | some proxy_service =>
    let (u, s3) := randFloat s2
    let start_time := baseTime + u * 3600
    match generateDuration g "proxy" group s3 with
    | .error e => .error e
    | .ok (proxy_duration, s4) =>
      let (status, s5) := generateStatus g group s4
      let (metadata, s6) := generateMetadata "proxy" s5
      let root : Trace :=
        { trace_id := trace_id
          service_name := proxy_service.name
          service_type := "proxy"
          start_time := start_time
          end_time := start_time + proxy_duration
          status := status
          parent_trace_id := none
          metadata := metadata }
      match genChildren g group trace_id proxy_service.connections [root]
          (start_time + proxy_duration) s6 with
      | .error e => .error e
      | .ok (ts, _, s7) => .ok (ts, s7)

/-- The counted loop of generate_traces, accumulating spans in emission order. -/
def genLoop (g : TraceGenerator) (baseTime : ℚ) :
    ℕ → List Trace → RState → Except String (List Trace × RState)
  | 0, acc, s => .ok (acc, s)
  | n + 1, acc, s =>
    match genOne g baseTime s with
    | .error e => .error e
    | .ok (ts, s1) => genLoop g baseTime n (acc ++ ts) s1

/-- TraceGenerator.generate_traces: base_time = datetime.now(), then num_traces
independent iterations. -/
def generateTraces (g : TraceGenerator) (numTraces : ℕ) (s : RState) :
    Except String (List Trace × RState) :=
  let (baseTime, s0) := nowQ s
  genLoop g baseTime numTraces [] s0

/-! ## trace_utils.py -/

/-- Bit length of a natural number, by structural recursion on a fuel argument that
starts at the number itself (the recursion halves the value, so the fuel is never
exhausted). -/
def bitlenAux : ℕ → ℕ → ℕ
  | 0, _ => 0
  | f + 1, n => if n = 0 then 0 else bitlenAux f (n / 2) + 1

/-- Number of binary digits of n (0 for 0). -/
def bitlen (n : ℕ) : ℕ := bitlenAux n n

/-- Round a natural number to at most 53 significant bits, ties to even: the
significand rounding of IEEE-754 binary64 multiplication, scale-free.  Exponent
overflow and subnormals are outside the modelled range (they would need inputs
far beyond any list Python could materialise). -/
def round53 (p : ℕ) : ℕ :=
  if bitlen p ≤ 53 then p
  else
    let k := bitlen p - 53
    let q := p / 2 ^ k
    let r := p % 2 ^ k
    let half := 2 ^ (k - 1)
    if half < r then (q + 1) * 2 ^ k
    else if r < half then q * 2 ^ k
    else if q % 2 = 0 then q * 2 ^ k
    else (q + 1) * 2 ^ k

/-- Numerator of the binary64 value closest to 0.2: the literal 0.2 in the source
denotes m02 / 2 ^ 54 exactly. -/
def m02 : ℕ := 3602879701896397

/-- Numerator of the binary64 value closest to 0.3: the literal 0.3 in the source
denotes m03 / 2 ^ 54 exactly. -/
def m03 : ℕ := 5404319552844595

/-- Embedding of the Python expression int(n * 0.2) for a nonnegative int n: n is
converted to binary64 (round53 n), the product with 0.2 = m02 / 2 ^ 54 is rounded to
53 significant bits, and int() truncates toward zero, here a floor division. -/
def pyInt02 (n : ℕ) : ℕ := round53 (round53 n * m02) / 2 ^ 54

/-- Embedding of the Python expression int(n * 0.3), as for pyInt02. -/
def pyInt03 (n : ℕ) : ℕ := round53 (round53 n * m03) / 2 ^ 54

/-- The connections dict of generate_random_topology, rendered as an association
list like every other Python dict in this embedding. -/
abbrev Conns := List (String × List String)

/-- Dict update connections[k] = v. -/
def cUpdate (c : Conns) (k : String) (v : List String) : Conns :=
  dictInsert c k v

/-- Dict read connections[k].  Every key the source reads is bound at that point
(wiring binds every service name), so the [] default for unbound names is never the
value of a read the source performs. -/
def cGet (c : Conns) (k : String) : List String :=
  (dictGet c k).getD []

/-- find_longest_path(connections, start_service, visited): depth-first longest
forward path count with a per-branch visited set (each recursive call receives its
own copy).  The fuel argument makes the Python recursion structural; callers pass
one more than the number of services, which the fuel-stability lemma below shows is
never exhausted on the maps the generator builds. -/
def findLongestPath (c : Conns) (start : String) (visited : List String) : ℕ → ℕ
  | 0 => 0
  | fuel + 1 =>
    if start ∈ visited then 0
    else if cGet c start = [] then 1
    else
      ((cGet c start).foldl (fun acc nxt =>
        max acc (findLongestPath c nxt (start :: visited) fuel)) 0) + 1

/-- One service's treatment inside a depth-limitation pass.  The source iterates
over a copy of connections[service], recomputing find_longest_path(connections,
service) for each target, removes the first target and breaks as soon as the length
exceeds max_depth; since the recomputed length does not change while nothing is
removed, the net effect is: drop the head of the list iff the service has
connections and its longest path exceeds max_depth. -/
def depthStep (maxDepth fuel : ℕ) (c : Conns) (service : String) : Conns :=
  if cGet c service = [] then c
  else if maxDepth < findLongestPath c service [] fuel then
    cUpdate c service (cGet c service).tail
  else c

/-- One depth-limitation pass: every service, in all_services order, under the
evolving connections map. -/
def depthPass (maxDepth fuel : ℕ) (order : List String) (c : Conns) : Conns :=
  order.foldl (depthStep maxDepth fuel) c

/-- The depth-limitation stage: for _ in range(max_depth, 10), i.e. 10 - max_depth
passes (none at all once max_depth is 10 or more). -/
def depthBound (maxDepth fuel : ℕ) (order : List String) (c : Conns) : Conns :=
  (List.range' maxDepth (10 - maxDepth)).foldl (fun acc _ => depthPass maxDepth fuel order acc) c

/-- Proxy wiring: shuffle a copy of the web names and keep a max_width prefix. -/
def wireProxy (webNames : List String) (maxWidth : ℕ) (acc : Conns × RState)
    (proxy : String) : Conns × RState :=
  let (shuffled, s1) := shuffleL webNames acc.2
  let width := min maxWidth shuffled.length
  (cUpdate acc.1 proxy (shuffled.take width), s1)

/-- Web wiring for the service at (index, name): later-indexed webs are included
with probability 0.7 (the coin is only tossed when some later web exists, matching
the Python short-circuit), databases are always appended, then shuffle and cut to
max_width. -/
def wireWeb (webNames dbNames : List String) (maxWidth : ℕ) (acc : Conns × RState)
    (iw : ℕ × String) : Conns × RState :=
  let later_webs := webNames.drop (iw.1 + 1)
  let (withLater, s1) :=
    if later_webs ≠ [] then
      let (u, s0) := randFloat acc.2
      if u < 0.7 then (later_webs, s0) else ([], s0)
    else ([], acc.2)
  let available_targets := withLater ++ dbNames
  let (shuffled, s2) := shuffleL available_targets s1
  let width := min maxWidth shuffled.length
  (cUpdate acc.1 iw.2 (shuffled.take width), s2)

/-- Candidate targets for the variability addition branch. -/
def varAddTargets (proxyNames webNames dbNames : List String) (c : Conns)
    (service : String) : List String :=
  if service ∈ proxyNames then
    webNames.filter (fun x => x ∉ cGet c service)
  else if service ∈ webNames then
    (webNames ++ dbNames).filter (fun x => x ∉ cGet c service ∧ x ≠ service)
  else []

/-- Variability perturbation for one service: with probability variability (and not
for databases) append one random eligible target while below max_width; then with
probability variability pop one random existing connection. -/
def varStep (variability : ℚ) (maxWidth : ℕ) (proxyNames webNames dbNames : List String)
    (acc : Conns × RState) (service : String) : Conns × RState :=
  let (u1, s1) := randFloat acc.2
  let (c1, s2) :=
    if u1 < variability ∧ service ∉ dbNames then
      let available := varAddTargets proxyNames webNames dbNames acc.1 service
      if available ≠ [] ∧ (cGet acc.1 service).length < maxWidth then
        let (ch, s1a) := listChoice available s1
        (cUpdate acc.1 service (cGet acc.1 service ++ [ch]), s1a)
      else (acc.1, s1)
    else (acc.1, s1)
  let (u2, s3) := randFloat s2
  if u2 < variability ∧ cGet c1 service ≠ [] then
    let (k, s4) := randBelow (cGet c1 service).length s3
    (cUpdate c1 service ((cGet c1 service).eraseIdx k), s4)
  else (c1, s3)

/-- Proxy count of generate_random_topology: max(1, int(num_services * 0.2)). -/
def numProxyOf (numServices : ℕ) : ℕ := max 1 (pyInt02 numServices)

/-- Database count: max(1, int(num_services * 0.3)). -/
def numDbOf (numServices : ℕ) : ℕ := max 1 (pyInt03 numServices)

/-- Web count: the remainder.  This is a natural-number subtraction: the partition
lemma below shows the proxy and database counts never exceed numServices, so it
agrees with the Python int subtraction. -/
def numWebOf (numServices : ℕ) : ℕ := numServices - numProxyOf numServices - numDbOf numServices

/-- proxy-1, proxy-2, ... -/
def proxyNamesOf (numServices : ℕ) : List String :=
  (List.range (numProxyOf numServices)).map (fun i => "proxy-" ++ toString (i + 1))

/-- service-1, service-2, ... -/
def webNamesOf (numServices : ℕ) : List String :=
  (List.range (numWebOf numServices)).map (fun i => "service-" ++ toString (i + 1))

/-- db-1, db-2, ... -/
def dbNamesOf (numServices : ℕ) : List String :=
  (List.range (numDbOf numServices)).map (fun i => "db-" ++ toString (i + 1))

/-- all_services before the shuffle. -/
def allNamesOf (numServices : ℕ) : List String :=
  proxyNamesOf numServices ++ webNamesOf numServices ++ dbNamesOf numServices

/-- The initial wiring: proxy connections, web connections, empty database
connections, in source order. -/
def topoWiring (numServices maxWidth : ℕ) (s : RState) : Conns × RState :=
  let (c1, s2) := (proxyNamesOf numServices).foldl
    (wireProxy (webNamesOf numServices) maxWidth) (([] : Conns), s)
  let (c2, s3) := (webNamesOf numServices).enum.foldl
    (wireWeb (webNamesOf numServices) (dbNamesOf numServices) maxWidth) (c1, s2)
  ((dbNamesOf numServices).foldl (fun c d => cUpdate c d []) c2, s3)

/-- The body of generate_random_topology after validation: shuffle all_services,
wire, bound the depth, perturb, and emit the ServiceConfig list.  The
service_groups slicing in the source is computed and then never read, and it draws
no randomness, so it is omitted here. -/
def topoPipeline (numServices maxDepth maxWidth : ℕ) (variability : ℚ) (s : RState) :
    List ServiceConfig × RState :=
  let (all_services, s1) := shuffleL (allNamesOf numServices) s
  let (c3, s3) := topoWiring numServices maxWidth s1
  let c4 := depthBound maxDepth (numServices + 1) all_services c3
  let (c5, s4) :=
    if 0 < variability then
      all_services.foldl (varStep variability maxWidth (proxyNamesOf numServices)
        (webNamesOf numServices) (dbNamesOf numServices)) (c4, s3)
    else (c4, s3)
  ((proxyNamesOf numServices).map (fun p => ⟨p, "proxy", cGet c5 p⟩) ++
   (webNamesOf numServices).map (fun w => ⟨w, "web", cGet c5 w⟩) ++
   (dbNamesOf numServices).map (fun d => ⟨d, "database", []⟩), s4)

/-- generate_random_topology: the two validation raises, then the pipeline.
numServiceGroups only feeds the dead service_groups slicing (see topoPipeline). -/
def generateRandomTopology (numServices maxDepth maxWidth numServiceGroups : ℕ)
    (variability : ℚ) (s : RState) : Except String (List ServiceConfig × RState) :=
  if numServices < 3 then
    .error "Number of services must be at least 3 (proxy, web, database)"
  else if maxDepth < 2 then
    .error "Max depth must be at least 2"
  else
    .ok (topoPipeline numServices maxDepth maxWidth variability s)

/-- The connections map induced by a returned service list (used to state depth
properties of the output the way find_longest_path reads its dict). -/
def topoConns (cfgs : List ServiceConfig) : Conns :=
  cfgs.map (fun c => (c.name, c.connections))

/-- The trace_map dict comprehension of extract_trace_hierarchy. -/
def buildTraceMap (traces : List Trace) : List (String × Trace) :=
  traces.foldl (fun m t => dictInsert m t.trace_id t) []

/-- The child_map of extract_trace_hierarchy, in input order.  The Python guard is
the truthiness test if trace.parent_trace_id, so both None and the empty string are
skipped. -/
def buildChildMap (traces : List Trace) : List (String × List Trace) :=
  traces.foldl (fun m t =>
    match t.parent_trace_id with
    | some p =>
      if p ≠ "" then
        match dictGet m p with
        | some l => dictInsert m p (l ++ [t])
        | none => dictInsert m p [t]
      else m
    | none => m) []

/-- collect_traces: the root, then each child's complete subtree in child-map order.
Fuel makes the Python recursion structural; on acyclic inputs the recursion depth is
bounded by the number of spans, so traces.length + 1 is never exhausted. -/
def collectTraces (tm : List (String × Trace)) (cm : List (String × List Trace)) :
    ℕ → String → List Trace
  | 0, _ => []
  | fuel + 1, tid =>
    match dictGet tm tid with
    | none => []
    | some tr =>
      tr :: ((dictGet cm tid).getD []).foldl
        (fun acc ch => acc ++ collectTraces tm cm fuel ch.trace_id) []

/-- extract_trace_hierarchy.  The second component models console diagnostics: the
Python function prints a warning and returns [] when the root id is unknown; it does
not raise. -/
def extract_trace_hierarchy (traces : List Trace) (rootTraceId : String) :
    List Trace × List String :=
  let trace_map := buildTraceMap traces
  if (dictGet trace_map rootTraceId).isNone then
    ([], ["Warning: Trace ID " ++ rootTraceId ++ " not found in traces"])
  else
    let child_map := buildChildMap traces
    (collectTraces trace_map child_map (traces.length + 1) rootTraceId, [])

/-- Boolean success test for Except results. -/
def exceptOk : Except String α → Bool
  | .ok _ => true
  | .error _ => false

/-! ## Dictionary lemmas -/

theorem dictGet_replace_ne {α : Type} (m : List (String × α)) (k k2 : String) (v : α)
    (h : k2 ≠ k) :
    dictGet (m.map (fun p => if p.1 = k then (k, v) else p)) k2 = dictGet m k2 := by
  induction m with
  | nil => rfl
  | cons p ps ih =>
    simp only [List.map_cons]
    by_cases hp : p.1 = k
    · rw [if_pos hp]
      show dictGet ((k, v) :: _) k2 = dictGet (p :: ps) k2
      simp only [dictGet]
      rw [if_neg (fun hh : k = k2 => h hh.symm),
        if_neg (fun hh : p.1 = k2 => h (hp.symm.trans hh).symm)]
      exact ih
    · rw [if_neg hp]
      simp only [dictGet]
      by_cases hp2 : p.1 = k2
      · rw [if_pos hp2, if_pos hp2]
      · rw [if_neg hp2, if_neg hp2]; exact ih

theorem dictGet_append_ne {α : Type} (m : List (String × α)) (k k2 : String) (v : α)
    (h : k2 ≠ k) : dictGet (m ++ [(k, v)]) k2 = dictGet m k2 := by
  induction m with
  | nil =>
    simp only [List.nil_append, dictGet, if_neg (fun hh : k = k2 => h hh.symm)]
  | cons p ps ih =>
    simp only [List.cons_append, dictGet]
    by_cases hp : p.1 = k2
    · rw [if_pos hp, if_pos hp]
    · rw [if_neg hp, if_neg hp]; exact ih

theorem dictGet_dictInsert_ne {α : Type} (m : List (String × α)) (k k2 : String) (v : α)
    (h : k2 ≠ k) : dictGet (dictInsert m k v) k2 = dictGet m k2 := by
  unfold dictInsert
  split
  · exact dictGet_replace_ne m k k2 v h
  · exact dictGet_append_ne m k k2 v h

theorem dictGet_replace_self {α : Type} (m : List (String × α)) (k : String) (v : α)
    (h : m.any (fun p => p.1 = k)) :
    dictGet (m.map (fun p => if p.1 = k then (k, v) else p)) k = some v := by
  induction m with
  | nil => simp at h
  | cons p ps ih =>
    by_cases hp : p.1 = k
    · simp [dictGet, hp]
    · simp only [List.any_cons, Bool.or_eq_true, decide_eq_true_eq] at h
      rcases h with h | h
      · exact absurd h hp
      · simp only [List.map_cons, if_neg hp, dictGet, if_neg hp]
        exact ih h

theorem dictGet_append_self {α : Type} (m : List (String × α)) (k : String) (v : α)
    (h : ¬ m.any (fun p => p.1 = k)) : dictGet (m ++ [(k, v)]) k = some v := by
  induction m with
  | nil => simp [dictGet]
  | cons p ps ih =>
    simp only [List.any_cons, Bool.or_eq_true, decide_eq_true_eq] at h
    push_neg at h
    simp only [List.cons_append, dictGet, if_neg h.1]
    exact ih (by simpa using h.2)

theorem dictGet_dictInsert_self {α : Type} (m : List (String × α)) (k : String) (v : α) :
    dictGet (dictInsert m k v) k = some v := by
  unfold dictInsert
  split
  · exact dictGet_replace_self m k v (by assumption)
  · exact dictGet_append_self m k v (by assumption)

theorem dictGet_buildTraceMap_none (traces : List Trace) (k : String)
    (h : ∀ t ∈ traces, t.trace_id ≠ k) :
    dictGet (buildTraceMap traces) k = none := by
  unfold buildTraceMap
  suffices hgen : ∀ (l : List Trace) (m : List (String × Trace)),
      dictGet m k = none → (∀ t ∈ l, t.trace_id ≠ k) →
      dictGet (l.foldl (fun m t => dictInsert m t.trace_id t) m) k = none by
    exact hgen traces [] rfl h
  intro l
  induction l with
  | nil => intro m hm _; exact hm
  | cons t ts ih =>
    intro m hm hl
    simp only [List.foldl_cons]
    exact ih (dictInsert m t.trace_id t)
      (by rw [dictGet_dictInsert_ne m t.trace_id k t
            (fun hh => hl t (List.mem_cons_self t ts) hh.symm)]; exact hm)
      (fun x hx => hl x (List.mem_cons_of_mem t hx))

/-! ## Concrete fixtures used by witnesses and counterexamples -/

/-- An all-zero random state: every float draw is 0, every integer draw is 0,
every clock reading is 0. -/
def stZero : RState := ⟨fun _ => 0, fun _ => 0, fun _ => 0, 0, 0, 0⟩

/-- The end-to-end topology of the spec scenario: gateway(proxy) -> backend(web)
-> database(database). -/
def gatewayTopology : List ServiceConfig :=
  [⟨"gateway", "proxy", ["backend"]⟩,
   ⟨"backend", "web", ["database"]⟩,
   ⟨"database", "database", []⟩]

/-! ## C8: unknown root id in extract_trace_hierarchy -/

theorem generateStatus_fst (gen : TraceGenerator) (group : ℕ) (s : RState) :
    (generateStatus gen group s).1 =
      if s.floats s.fi < successProbability group gen.num_groups gen.randomization_level
      then "success" else "error" := rfl

/-- C8: for every span list and every root id that is not the trace_id of any span
in the list, extract_trace_hierarchy returns an empty list together with the
diagnostic warning message, and (being a total function here, with no failing
branch in the source either) raises no exception. -/
theorem c8_unknown_root_empty_with_diagnostic (traces : List Trace) (rootId : String)
    (h : ∀ t ∈ traces, t.trace_id ≠ rootId) :
    extract_trace_hierarchy traces rootId =
      ([], ["Warning: Trace ID " ++ rootId ++ " not found in traces"]) := by
  have hnone := dictGet_buildTraceMap_none traces rootId h
  simp [extract_trace_hierarchy, hnone]

theorem c8_witness :
    extract_trace_hierarchy [⟨"t1", "svc", "web", 0, 1, "success", none, []⟩] "zzz" =
      ([], ["Warning: Trace ID zzz not found in traces"]) :=
  c8_unknown_root_empty_with_diagnostic _ _ (by decide)

/-! ## C7: status formula and monotonicity in randomization_level -/

/-- C7: the status draw succeeds exactly when the uniform draw is strictly below
(0.95 - (g / num_groups) * 0.1) * (1 - randomization_level), and for a fixed group
g < num_groups this probability strictly decreases as the randomization level
increases from 0 toward 1. -/
theorem c7_status_formula_and_monotone (gen : TraceGenerator) (group : ℕ) (s : RState)
    (g n : ℕ) (r1 r2 : ℚ) (hn : 1 ≤ n) (hg : g < n) (h0 : 0 ≤ r1) (h12 : r1 < r2)
    (h21 : r2 ≤ 1) :
    ((generateStatus gen group s).1 = "success" ↔
      s.floats s.fi < successProbability group gen.num_groups gen.randomization_level)
    ∧ successProbability g n r2 < successProbability g n r1 := by
  constructor
  · rw [generateStatus_fst]
    by_cases hc : s.floats s.fi <
        successProbability group gen.num_groups gen.randomization_level
    · rw [if_pos hc]; exact iff_of_true rfl hc
    · rw [if_neg hc]; exact iff_of_false (by decide) hc
  · unfold successProbability
    have hn0 : (0 : ℚ) < (n : ℚ) := by exact_mod_cast Nat.lt_of_lt_of_le Nat.zero_lt_one hn
    have hdiv : (g : ℚ) / (n : ℚ) < 1 := by
      rw [div_lt_one hn0]; exact_mod_cast hg
    have hdiv0 : 0 ≤ (g : ℚ) / (n : ℚ) := by positivity
    have hB : (0 : ℚ) < 0.95 - (g : ℚ) / (n : ℚ) * 0.1 := by nlinarith
    have h1r : 1 - r2 < 1 - r1 := by linarith
    exact mul_lt_mul_of_pos_left h1r hB

theorem c7_witness :
    (((generateStatus ⟨[], 0, 1⟩ 0 stZero).1 = "success" ↔
      (stZero.floats 0) < successProbability 0 1 0)
    ∧ successProbability 0 1 1 < successProbability 0 1 0) :=
  c7_status_formula_and_monotone ⟨[], 0, 1⟩ 0 stZero 0 1 0 1 (by norm_num) (by norm_num)
    (by norm_num) (by norm_num) (by norm_num)

/-! ## C9: undeclared connection target fails construction -/

/-- C9 counterexample: the claim quantifies over every service list, but the
constructor builds a name-keyed dict first, so a service shadowed by a later
duplicate name is never validated.  Here the first service connects to "ghost",
which no service in the list declares, yet construction succeeds. -/
theorem c9_counterexample_duplicate_shadowing :
    exceptOk (mkTraceGenerator
      [⟨"a", "web", ["ghost"]⟩, ⟨"a", "web", []⟩] (3/10) 3) = true := by decide

/-- C9 amended: if some service surviving the dict construction (later duplicate
names replace earlier entries) has a connection naming a key absent from the dict,
the constructor returns the configuration error synchronously and no generator
value is produced (the Except carries nothing else). -/
theorem c9_amended_undeclared_connection_errors (services : List ServiceConfig)
    (rl : ℚ) (ng : ℤ)
    (h : ∃ p ∈ buildServicesDict services, ∃ conn ∈ p.2.connections,
        dictGet (buildServicesDict services) conn = none) :
    ∃ e, mkTraceGenerator services rl ng = .error e := by
  obtain ⟨p, hp, conn, hconn, hnone⟩ := h
  cases hfs : (buildServicesDict services).findSome? (fun p =>
      p.2.connections.findSome? (fun conn =>
        if (dictGet (buildServicesDict services) conn).isNone then
          some (p.2.name, conn) else none)) with
  | none =>
    rw [List.findSome?_eq_none_iff] at hfs
    have h1 := hfs p hp
    rw [List.findSome?_eq_none_iff] at h1
    have h2 := h1 conn hconn
    rw [hnone] at h2
    simp at h2
  | some v =>
    obtain ⟨n0, c0⟩ := v
    have hval : validateConnections (buildServicesDict services) =
        .error ("Service " ++ n0 ++ " connects to non-existent service " ++ c0) := by
      unfold validateConnections
      rw [hfs]
    refine ⟨"Service " ++ n0 ++ " connects to non-existent service " ++ c0, ?_⟩
    simp only [mkTraceGenerator]
    rw [hval]

theorem c9_witness :
    ∃ e, mkTraceGenerator [⟨"a", "web", ["ghost"]⟩] (3/10) 3 = .error e :=
  c9_amended_undeclared_connection_errors _ _ _
    ⟨⟨"a", ⟨"a", "web", ["ghost"]⟩⟩, by decide, "ghost", by decide, by decide⟩

/-! ## C10: construction succeeds without a proxy, generation then raises -/

/-- C10: a service list that passes connection validation but declares no
proxy-typed service constructs successfully, and generate_traces(n) for n >= 1
fails with the uncaught StopIteration from next(...) while searching for a proxy
entry point, returning no spans and no configuration error. -/
theorem c10_no_proxy_generate_raises (services : List ServiceConfig) (rl : ℚ) (ng : ℤ)
    (n : ℕ) (st : RState)
    (hval : ∀ p ∈ buildServicesDict services, ∀ conn ∈ p.2.connections,
        (dictGet (buildServicesDict services) conn).isSome)
    (hnp : ∀ p ∈ buildServicesDict services, p.2.service_type ≠ "proxy")
    (hn : 1 ≤ n) :
    ∃ g, mkTraceGenerator services rl ng = .ok g ∧
      generateTraces g n st = .error "StopIteration" := by
  have hv : validateConnections (buildServicesDict services) = .ok () := by
    unfold validateConnections
    have hfs : (buildServicesDict services).findSome? (fun p =>
        p.2.connections.findSome? (fun conn =>
          if (dictGet (buildServicesDict services) conn).isNone then
            some (p.2.name, conn) else none)) = none := by
      rw [List.findSome?_eq_none_iff]
      intro p hp
      rw [List.findSome?_eq_none_iff]
      intro conn hc
      rw [if_neg]
      simp [Option.isNone_iff_eq_none]
      exact Option.isSome_iff_ne_none.mp (hval p hp conn hc)
    rw [hfs]
  refine ⟨⟨buildServicesDict services, max 0 (min 1 rl), (max 1 ng).toNat⟩, ?_, ?_⟩
  · simp only [mkTraceGenerator]
    rw [hv]
  · have hfind : ((buildServicesDict services).map Prod.snd).find?
        (fun svc => svc.service_type = "proxy") = none := by
      rw [List.find?_eq_none]
      intro x hx
      obtain ⟨p, hp, rfl⟩ := List.mem_map.mp hx
      simp [hnp p hp]
    obtain ⟨k, rfl⟩ : ∃ k, n = k + 1 := ⟨n - 1, by omega⟩
    show genLoop _ _ (k + 1) [] _ = _
    have hone : ∀ (bt : ℚ) (s2 : RState), genOne
        ⟨buildServicesDict services, max 0 (min 1 rl), (max 1 ng).toNat⟩
        bt s2 = .error "StopIteration" := by
      intro bt s2
      simp only [genOne]
      rw [hfind]
    simp only [genLoop]
    rw [hone]

theorem c10_witness :
    ∃ g, mkTraceGenerator [⟨"w", "web", ["d"]⟩, ⟨"d", "database", []⟩] (3/10) 3 = .ok g ∧
      generateTraces g 1 stZero = .error "StopIteration" :=
  c10_no_proxy_generate_raises _ _ _ _ _ (by decide) (by decide) (by norm_num)

/-! ## C1: end-to-end scenario on the gateway topology -/

/-- C1: on the topology gateway(proxy, [backend]) -> backend(web, [database]) ->
database(database), with num_groups = 1 and randomization_level = 0, a single call
generate_traces(1) produces exactly two spans for every random stream: a root span
for gateway with no parent, and one child span for backend whose parent_trace_id is
the gateway span's trace_id.  No database span appears: the walk descends exactly
one level from the proxy entry point. -/
theorem c1_gateway_two_spans (st : RState) :
    ∃ g root child st2,
      mkTraceGenerator gatewayTopology 0 1 = .ok g ∧
      generateTraces g 1 st = .ok ([root, child], st2) ∧
      root.service_name = "gateway" ∧ root.service_type = "proxy" ∧
      root.parent_trace_id = none ∧
      child.service_name = "backend" ∧ child.service_type = "web" ∧
      child.parent_trace_id = some root.trace_id ∧
      ([root, child].all (fun t => t.service_name != "database")) = true :=
  ⟨_, _, _, _, rfl, rfl, rfl, rfl, rfl, rfl, rfl, rfl, rfl⟩

/-! ## C4: extract_trace_hierarchy preorder and child order -/

/-- Root span R of the C4 scenario. -/
def spanR : Trace := ⟨"r", "svcR", "proxy", 0, 1, "success", none, []⟩

/-- Span A, child of R. -/
def spanA : Trace := ⟨"a", "svcA", "web", 1, 2, "success", some "r", []⟩

/-- Span B, child of R. -/
def spanB : Trace := ⟨"b", "svcB", "web", 2, 3, "success", some "r", []⟩

/-- Span C, child of A. -/
def spanC : Trace := ⟨"c", "svcC", "database", 2, 3, "error", some "a", []⟩

/-- C4 counterexample: the claim promises the output [R, A, C, B] regardless of the
order in which the four spans appear in the input, but the child lists follow input
order: feeding [R, B, A, C] yields [R, B, A, C], not [R, A, C, B]. -/
theorem c4_counterexample_input_order_matters :
    (extract_trace_hierarchy [spanR, spanB, spanA, spanC] "r").1 ≠
      [spanR, spanA, spanC, spanB] ∧
    (extract_trace_hierarchy [spanR, spanB, spanA, spanC] "r").1 =
      [spanR, spanB, spanA, spanC] := by decide

/-- All ways to insert x into a list, by structural recursion (used to enumerate
permutations in a kernel-computable way). -/
def insertsL (x : α) : List α → List (List α)
  | [] => [[x]]
  | y :: ys => (x :: y :: ys) :: (insertsL x ys).map (fun l => y :: l)

/-- All permutations of a list, kernel-computable. -/
def permsL : List α → List (List α)
  | [] => [[]]
  | x :: xs => (permsL xs).flatMap (insertsL x)

theorem mem_insertsL_append (x : α) (u v : List α) :
    u ++ x :: v ∈ insertsL x (u ++ v) := by
  induction u with
  | nil => cases v <;> simp [insertsL]
  | cons y u ih =>
    simp only [List.cons_append, insertsL]
    exact List.mem_cons_of_mem _ (List.mem_map_of_mem (fun l => y :: l) ih)

theorem perm_of_mem_insertsL (x : α) (p l : List α) (h : l ∈ insertsL x p) :
    l.Perm (x :: p) := by
  induction p generalizing l with
  | nil =>
    simp only [insertsL, List.mem_singleton] at h
    exact h ▸ List.Perm.refl _
  | cons y ys ih =>
    simp only [insertsL, List.mem_cons, List.mem_map] at h
    rcases h with rfl | ⟨m, hm, rfl⟩
    · exact List.Perm.refl _
    · exact ((ih m hm).cons y).trans (List.Perm.swap x y ys)

theorem mem_permsL_iff (base l : List α) : l ∈ permsL base ↔ l.Perm base := by
  induction base generalizing l with
  | nil =>
    simp only [permsL, List.mem_singleton]
    exact ⟨fun h => h ▸ List.Perm.refl _, fun h => h.eq_nil⟩
  | cons x xs ih =>
    simp only [permsL, List.mem_flatMap]
    constructor
    · rintro ⟨p, hp, hl⟩
      exact (perm_of_mem_insertsL x p l hl).trans (((ih p).mp hp).cons x)
    · intro hl
      have hx : x ∈ l := hl.mem_iff.mpr (List.mem_cons_self _ _)
      obtain ⟨u, v, rfl⟩ := List.append_of_mem hx
      refine ⟨u ++ v, (ih _).mpr ?_, mem_insertsL_append x u v⟩
      have hmid : (x :: (u ++ v)).Perm (u ++ x :: v) := List.perm_middle.symm
      exact (hmid.trans hl).cons_inv

/-- C4 amended: for the four-span family R, A, B (children of R), C (child of A),
the extraction returns the preorder [R, A, C, B] for exactly those input orders in
which A precedes B; sibling order in the output follows input order, not an
intrinsic child-list order. -/
theorem c4_amended_preorder_when_A_before_B :
    ∀ l : List Trace, l.Perm [spanR, spanA, spanB, spanC] →
      l.indexOf spanA < l.indexOf spanB →
      (extract_trace_hierarchy l "r").1 = [spanR, spanA, spanC, spanB] := by
  have hall : ∀ l ∈ permsL [spanR, spanA, spanB, spanC],
      l.indexOf spanA < l.indexOf spanB →
      (extract_trace_hierarchy l "r").1 = [spanR, spanA, spanC, spanB] := by decide
  intro l hperm
  exact hall l ((mem_permsL_iff _ _).mpr hperm)

theorem c4_witness :
    (extract_trace_hierarchy [spanR, spanA, spanB, spanC] "r").1 =
      [spanR, spanA, spanC, spanB] :=
  c4_amended_preorder_when_A_before_B _ (by decide) (by decide)

/-! ## C6: end_time is never before start_time -/

theorem generateTraceId_floats (s : RState) : (generateTraceId s).2.floats = s.floats := rfl

theorem generateStatus_floats (g : TraceGenerator) (group : ℕ) (s : RState) :
    (generateStatus g group s).2.floats = s.floats := rfl

theorem generateMetadata_floats (ty : String) (s : RState) :
    (generateMetadata ty s).2.floats = s.floats := by
  unfold generateMetadata
  split
  · rfl
  · split
    · rfl
    · split <;> rfl

theorem generateDuration_ok (g : TraceGenerator) (ty : String) (group : ℕ) (s : RState)
    (d : ℚ) (s2 : RState) (h : generateDuration g ty group s = .ok (d, s2)) :
    s2.floats = s.floats ∧
    (0 ≤ g.randomization_level → g.randomization_level ≤ 1 → 0 ≤ s.floats s.fi → 0 ≤ d) := by
  unfold generateDuration at h
  cases hb : baseDurations ty with
  | none => rw [hb] at h; exact absurd h (by simp)
  | some b =>
    rw [hb] at h
    simp only [randFloat, Except.ok.injEq, Prod.mk.injEq] at h
    obtain ⟨hd, hs⟩ := h
    constructor
    · rw [← hs]
    · intro hr0 hr1 hu
      have hbpos : (0 : ℚ) < b := by
        unfold baseDurations at hb
        split at hb
        · cases hb; norm_num
        · split at hb
          · cases hb; norm_num
          · split at hb
            · cases hb; norm_num
            · cases hb
      have hgf : (0 : ℚ) ≤ 1 + ((group : ℚ) / (g.num_groups : ℚ)) * 0.5 := by positivity
      have hrf : (0 : ℚ) ≤ 1 + (s.floats s.fi - 0.5) * g.randomization_level := by
        nlinarith [mul_nonneg hu hr0]
      rw [← hd]
      exact mul_nonneg (mul_nonneg hbpos.le hgf) hrf

theorem genChildren_spans_le (g : TraceGenerator)
    (hr0 : 0 ≤ g.randomization_level) (hr1 : g.randomization_level ≤ 1)
    (group : ℕ) (rootId : String) (f : ℕ → ℚ) (hf : ∀ i, 0 ≤ f i) :
    ∀ (conns : List String) (acc : List Trace) (cur : ℚ) (s : RState)
      (out : List Trace) (cur2 : ℚ) (s2 : RState),
      s.floats = f →
      (∀ t ∈ acc, t.start_time ≤ t.end_time) →
      genChildren g group rootId conns acc cur s = .ok (out, cur2, s2) →
      (∀ t ∈ out, t.start_time ≤ t.end_time) ∧ s2.floats = f
  | [], acc, cur, s, out, cur2, s2 => by
    intro hsf hacc heq
    simp only [genChildren, Except.ok.injEq, Prod.mk.injEq] at heq
    obtain ⟨rfl, -, rfl⟩ := heq
    exact ⟨hacc, hsf⟩
  | connName :: rest, acc, cur, s, out, cur2, s2 => by
    intro hsf hacc heq
    simp only [genChildren] at heq
    cases hdg : dictGet g.services connName with
    | none => rw [hdg] at heq; simp at heq
    | some svc =>
      rw [hdg] at heq
      dsimp only at heq
      cases hdur : generateDuration g svc.service_type group s with
      | error e => rw [hdur] at heq; simp at heq
      | ok pr =>
        obtain ⟨d, s1⟩ := pr
        rw [hdur] at heq
        dsimp only at heq
        obtain ⟨hs1f, hdpos⟩ := generateDuration_ok g svc.service_type group s d s1 hdur
        have hd : 0 ≤ d := hdpos hr0 hr1 (by rw [hsf]; exact hf s.fi)
        have hD : ((generateMetadata svc.service_type
            (generateStatus g group (generateTraceId s1).2).2).2).floats = f := by
          rw [generateMetadata_floats, generateStatus_floats, generateTraceId_floats,
            hs1f, hsf]
        refine genChildren_spans_le g hr0 hr1 group rootId f hf rest _ _ _ _ _ _ hD ?_ heq
        intro t ht
        rcases List.mem_append.mp ht with hl | hr
        · exact hacc t hl
        · rcases List.mem_singleton.mp hr with rfl
          show cur ≤ cur + d
          linarith

theorem randFloat_floats (s : RState) : (randFloat s).2.floats = s.floats := rfl

theorem randBelow_floats (n : ℕ) (s : RState) : (randBelow n s).2.floats = s.floats := rfl

theorem nowQ_floats (s : RState) : (nowQ s).2.floats = s.floats := rfl

theorem genOne_spans_le (g : TraceGenerator)
    (hr0 : 0 ≤ g.randomization_level) (hr1 : g.randomization_level ≤ 1)
    (f : ℕ → ℚ) (hf : ∀ i, 0 ≤ f i) (bt : ℚ) (s : RState) (out : List Trace)
    (s2 : RState) (hsf : s.floats = f)
    (heq : genOne g bt s = .ok (out, s2)) :
    (∀ t ∈ out, t.start_time ≤ t.end_time) ∧ s2.floats = f := by
  simp only [genOne] at heq
  split at heq
  · simp at heq
  next proxySvc hfind =>
    split at heq
    · simp at heq
    next d s4 hdur =>
      split at heq
      · simp at heq
      next ts cur2 s7 hgc =>
        simp only [Except.ok.injEq, Prod.mk.injEq] at heq
        obtain ⟨rfl, rfl⟩ := heq
        obtain ⟨hs4f, hdpos⟩ := generateDuration_ok _ _ _ _ _ _ hdur
        have hpref : (randFloat (generateTraceId (randBelow g.num_groups s).2).2).2.floats
            = f := by
          rw [randFloat_floats, generateTraceId_floats, randBelow_floats, hsf]
        have hs4 : s4.floats = f := by rw [hs4f, hpref]
        have hd : 0 ≤ d := hdpos hr0 hr1 (by rw [hpref]; exact hf _)
        have hchain : ((generateMetadata "proxy" (generateStatus g
            (randBelow g.num_groups s).1 s4).2).2).floats = f := by
          rw [generateMetadata_floats, generateStatus_floats, hs4]
        refine genChildren_spans_le g hr0 hr1 _ _ f hf _ _ _ _ _ _ _ hchain ?_ hgc
        intro t ht
        rcases List.mem_singleton.mp ht with rfl
        dsimp only
        linarith

theorem genLoop_spans_le (g : TraceGenerator)
    (hr0 : 0 ≤ g.randomization_level) (hr1 : g.randomization_level ≤ 1)
    (f : ℕ → ℚ) (hf : ∀ i, 0 ≤ f i) (bt : ℚ) :
    ∀ (n : ℕ) (acc : List Trace) (s : RState) (out : List Trace) (s2 : RState),
      s.floats = f →
      (∀ t ∈ acc, t.start_time ≤ t.end_time) →
      genLoop g bt n acc s = .ok (out, s2) →
      ∀ t ∈ out, t.start_time ≤ t.end_time
  | 0, acc, s, out, s2 => by
    intro hsf hacc heq
    simp only [genLoop, Except.ok.injEq, Prod.mk.injEq] at heq
    obtain ⟨rfl, rfl⟩ := heq
    exact hacc
  | n + 1, acc, s, out, s2 => by
    intro hsf hacc heq
    simp only [genLoop] at heq
    split at heq
    · simp at heq
    next ts s1 hone =>
      obtain ⟨hts, hs1f⟩ := genOne_spans_le g hr0 hr1 f hf bt s ts s1 hsf hone
      refine genLoop_spans_le g hr0 hr1 f hf bt n _ _ _ _ hs1f ?_ heq
      intro t ht
      rcases List.mem_append.mp ht with hl | hr
      · exact hacc t hl
      · exact hts t hr

theorem mkTraceGenerator_ok_fields (services : List ServiceConfig) (rl : ℚ) (ng : ℤ)
    (g : TraceGenerator) (h : mkTraceGenerator services rl ng = .ok g) :
    g.services = buildServicesDict services ∧
    g.randomization_level = max 0 (min 1 rl) ∧
    g.num_groups = (max 1 ng).toNat := by
  simp only [mkTraceGenerator] at h
  split at h
  · simp at h
  · simp only [Except.ok.injEq] at h
    rw [← h]
    exact ⟨rfl, rfl, rfl⟩

/-- C6: every span emitted by generate_traces, and every span built by the manual
single-span constructor _create_trace, satisfies end_time >= start_time: the span
duration base(type) * (1 + (g/num_groups) * 0.5) * (1 + (U - 0.5) * r) is
nonnegative because the randomization level r is clamped into [0, 1] at
construction and U is a uniform draw in [0, 1). -/
theorem c6_end_time_ge_start_time (services : List ServiceConfig) (rl : ℚ) (ng : ℤ)
    (g : TraceGenerator) (hg : mkTraceGenerator services rl ng = .ok g)
    (cnt : ℕ) (st : RState) (hf : ∀ i, 0 ≤ st.floats i) :
    (∀ ts st2, generateTraces g cnt st = .ok (ts, st2) →
      ∀ t ∈ ts, t.start_time ≤ t.end_time)
    ∧ (∀ tid nm ty par tr st2, createTrace g tid nm ty par st = .ok (tr, st2) →
      tr.start_time ≤ tr.end_time) := by
  obtain ⟨-, hrl, -⟩ := mkTraceGenerator_ok_fields services rl ng g hg
  have hr0 : 0 ≤ g.randomization_level := by rw [hrl]; exact le_max_left 0 _
  have hr1 : g.randomization_level ≤ 1 := by
    rw [hrl]
    exact max_le (by norm_num) (min_le_left 1 rl)
  constructor
  · intro ts st2 heq
    simp only [generateTraces] at heq
    exact genLoop_spans_le g hr0 hr1 st.floats hf _ cnt [] _ ts st2
      (by rw [nowQ_floats]) (by simp) heq
  · intro tid nm ty par tr st2 heq
    simp only [createTrace] at heq
    split at heq
    · simp at heq
    next d s4 hdur =>
      simp only [Except.ok.injEq, Prod.mk.injEq] at heq
      obtain ⟨rfl, -⟩ := heq
      obtain ⟨-, hdpos⟩ := generateDuration_ok _ _ _ _ _ _ hdur
      have hd : 0 ≤ d := hdpos hr0 hr1 (by
        rw [randFloat_floats, nowQ_floats, randBelow_floats]; exact hf _)
      dsimp only
      linarith

theorem c6_witness :
    ({ trace_id := "t", service_name := "gw", service_type := "proxy",
       start_time := 0, end_time := 0.1, status := "success",
       parent_trace_id := none,
       metadata := [("http_method", "GET"), ("endpoint", "/api/v1/resource/1")] }
      : Trace).start_time ≤
    ({ trace_id := "t", service_name := "gw", service_type := "proxy",
       start_time := 0, end_time := 0.1, status := "success",
       parent_trace_id := none,
       metadata := [("http_method", "GET"), ("endpoint", "/api/v1/resource/1")] }
      : Trace).end_time := by
  have hmk : mkTraceGenerator gatewayTopology 0 1 =
      .ok ⟨buildServicesDict gatewayTopology, max 0 (min 1 0), (max 1 (1 : ℤ)).toNat⟩ := rfl
  have hct : createTrace
      ⟨buildServicesDict gatewayTopology, max 0 (min 1 0), (max 1 (1 : ℤ)).toNat⟩
      "t" "gw" "proxy" none stZero =
      .ok ({ trace_id := "t", service_name := "gw", service_type := "proxy",
             start_time := 0, end_time := 0.1, status := "success",
             parent_trace_id := none,
             metadata := [("http_method", "GET"), ("endpoint", "/api/v1/resource/1")] },
           ⟨fun _ => 0, fun _ => 0, fun _ => 0, 3, 4, 1⟩) := by
    with_unfolding_all rfl
  exact (c6_end_time_ge_start_time gatewayTopology 0 1 _ hmk 0 stZero
    (fun i => le_refl 0)).2 "t" "gw" "proxy" none _ _ hct

/-! ## Arithmetic facts about the float model -/

theorem bitlenAux_zero (f : ℕ) : bitlenAux f 0 = 0 := by
  cases f <;> simp [bitlenAux]

theorem bitlenAux_spec : ∀ (f n : ℕ), n ≤ f →
    n < 2 ^ bitlenAux f n ∧ (n ≠ 0 → 2 ^ (bitlenAux f n - 1) ≤ n) := by
  intro f
  induction f with
  | zero =>
    intro n hn
    interval_cases n
    exact ⟨by norm_num [bitlenAux], by simp⟩
  | succ f ih =>
    intro n hn
    by_cases h0 : n = 0
    · subst h0
      exact ⟨by norm_num [bitlenAux], by simp⟩
    · have hrec : bitlenAux (f + 1) n = bitlenAux f (n / 2) + 1 := by
        simp [bitlenAux, h0]
      have hle : n / 2 ≤ f := by omega
      obtain ⟨ihu, ihl⟩ := ih (n / 2) hle
      constructor
      · rw [hrec, pow_succ]
        omega
      · intro _
        rw [hrec]
        have hexp : bitlenAux f (n / 2) + 1 - 1 = bitlenAux f (n / 2) := by omega
        rw [hexp]
        by_cases h2 : n / 2 = 0
        · rw [h2, bitlenAux_zero]
          omega
        · have hlow := ihl h2
          rcases Nat.eq_zero_or_pos (bitlenAux f (n / 2)) with hz | hp
          · rw [hz]
            omega
          · have hb2 : 2 ^ bitlenAux f (n / 2) = 2 * 2 ^ (bitlenAux f (n / 2) - 1) := by
              conv_lhs => rw [show bitlenAux f (n / 2) = bitlenAux f (n / 2) - 1 + 1 by omega]
              rw [pow_succ]
              ring
            omega

theorem bitlen_lt (n : ℕ) : n < 2 ^ bitlen n := (bitlenAux_spec n n le_rfl).1

theorem bitlen_ge (n : ℕ) (h : n ≠ 0) : 2 ^ (bitlen n - 1) ≤ n :=
  (bitlenAux_spec n n le_rfl).2 h

theorem round53_bound (p : ℕ) : 2 ^ 53 * round53 p ≤ (2 ^ 53 + 1) * p := by
  unfold round53
  split
  · nlinarith [Nat.zero_le p]
  next hL =>
    push_neg at hL
    have hp0 : p ≠ 0 := by
      intro h
      subst h
      simp [bitlen, bitlenAux] at hL
    set k := bitlen p - 53 with hk
    have hk1 : 1 ≤ k := by omega
    have hlow : 2 ^ (bitlen p - 1) ≤ p := bitlen_ge p hp0
    have hpow : 2 ^ 53 * 2 ^ (k - 1) ≤ p := by
      have heq : 2 ^ 53 * 2 ^ (k - 1) = 2 ^ (bitlen p - 1) := by
        rw [← pow_add]
        congr 1
        omega
      omega
    have hdm := Nat.div_add_mod p (2 ^ k)
    have hcomm : 2 ^ k * (p / 2 ^ k) = p / 2 ^ k * 2 ^ k := Nat.mul_comm _ _
    have hmodlt : p % 2 ^ k < 2 ^ k := Nat.mod_lt _ (Nat.pos_pow_of_pos k (by norm_num))
    have hhalf : 2 ^ (k - 1) + 2 ^ (k - 1) = 2 ^ k := by
      have h2 : 2 ^ k = 2 ^ (k - 1) * 2 := by
        rw [← pow_succ]
        congr 1
        omega
      omega
    have hdown : 2 ^ 53 * (p / 2 ^ k * 2 ^ k) ≤ (2 ^ 53 + 1) * p := by
      have hle : p / 2 ^ k * 2 ^ k ≤ p := Nat.div_mul_le_self p (2 ^ k)
      calc 2 ^ 53 * (p / 2 ^ k * 2 ^ k) ≤ 2 ^ 53 * p := Nat.mul_le_mul_left _ hle
        _ ≤ (2 ^ 53 + 1) * p := Nat.mul_le_mul_right _ (by omega)
    have hupGen : 2 ^ (k - 1) ≤ p % 2 ^ k →
        2 ^ 53 * ((p / 2 ^ k + 1) * 2 ^ k) ≤ (2 ^ 53 + 1) * p := by
      intro hge
      have hexpand : (p / 2 ^ k + 1) * 2 ^ k = p / 2 ^ k * 2 ^ k + 2 ^ k := by ring
      have hup : (p / 2 ^ k + 1) * 2 ^ k ≤ p + 2 ^ (k - 1) := by omega
      calc 2 ^ 53 * ((p / 2 ^ k + 1) * 2 ^ k)
          ≤ 2 ^ 53 * (p + 2 ^ (k - 1)) := Nat.mul_le_mul_left _ hup
        _ = 2 ^ 53 * p + 2 ^ 53 * 2 ^ (k - 1) := by ring
        _ ≤ 2 ^ 53 * p + p := by omega
        _ = (2 ^ 53 + 1) * p := by ring
    dsimp only
    split
    next hr => exact hupGen (by omega)
    · split
      next hr => exact hdown
      · split
        next heven => exact hdown
        next hodd => exact hupGen (by omega)

theorem pyInt02_le (n : ℕ) : pyInt02 n ≤ n / 4 := by
  rw [Nat.le_div_iff_mul_le (by norm_num : 0 < 4)]
  have hcancel : 2 ^ 53 * 2 ^ 53 * 2 ^ 54 * (pyInt02 n * 4) ≤
      2 ^ 53 * 2 ^ 53 * 2 ^ 54 * n → pyInt02 n * 4 ≤ n :=
    fun h => Nat.le_of_mul_le_mul_left h (by positivity)
  apply hcancel
  have h1 := round53_bound n
  have h2 := round53_bound (round53 n * m02)
  have hB : pyInt02 n * 2 ^ 54 ≤ round53 (round53 n * m02) := by
    unfold pyInt02
    exact Nat.div_mul_le_self _ _
  have hkey : 4 * ((2 ^ 53 + 1) * ((2 ^ 53 + 1) * m02)) ≤ 2 ^ 53 * (2 ^ 53 * 2 ^ 54) := by
    norm_num [m02]
  calc 2 ^ 53 * 2 ^ 53 * 2 ^ 54 * (pyInt02 n * 4)
      = 4 * (2 ^ 53 * (2 ^ 53 * (pyInt02 n * 2 ^ 54))) := by ring
    _ ≤ 4 * (2 ^ 53 * (2 ^ 53 * round53 (round53 n * m02))) := by
        exact Nat.mul_le_mul_left 4 (Nat.mul_le_mul_left _ (Nat.mul_le_mul_left _ hB))
    _ ≤ 4 * (2 ^ 53 * ((2 ^ 53 + 1) * (round53 n * m02))) := by
        exact Nat.mul_le_mul_left 4 (Nat.mul_le_mul_left _ h2)
    _ = 4 * ((2 ^ 53 + 1) * m02 * (2 ^ 53 * round53 n)) := by ring
    _ ≤ 4 * ((2 ^ 53 + 1) * m02 * ((2 ^ 53 + 1) * n)) := by
        exact Nat.mul_le_mul_left 4 (Nat.mul_le_mul_left _ h1)
    _ = 4 * ((2 ^ 53 + 1) * ((2 ^ 53 + 1) * m02)) * n := by ring
    _ ≤ 2 ^ 53 * (2 ^ 53 * 2 ^ 54) * n := Nat.mul_le_mul_right n hkey
    _ = 2 ^ 53 * 2 ^ 53 * 2 ^ 54 * n := by ring

theorem pyInt03_le (n : ℕ) : pyInt03 n ≤ n / 2 := by
  rw [Nat.le_div_iff_mul_le (by norm_num : 0 < 2)]
  have hcancel : 2 ^ 53 * 2 ^ 53 * 2 ^ 54 * (pyInt03 n * 2) ≤
      2 ^ 53 * 2 ^ 53 * 2 ^ 54 * n → pyInt03 n * 2 ≤ n :=
    fun h => Nat.le_of_mul_le_mul_left h (by positivity)
  apply hcancel
  have h1 := round53_bound n
  have h2 := round53_bound (round53 n * m03)
  have hB : pyInt03 n * 2 ^ 54 ≤ round53 (round53 n * m03) := by
    unfold pyInt03
    exact Nat.div_mul_le_self _ _
  have hkey : 2 * ((2 ^ 53 + 1) * ((2 ^ 53 + 1) * m03)) ≤ 2 ^ 53 * (2 ^ 53 * 2 ^ 54) := by
    norm_num [m03]
  calc 2 ^ 53 * 2 ^ 53 * 2 ^ 54 * (pyInt03 n * 2)
      = 2 * (2 ^ 53 * (2 ^ 53 * (pyInt03 n * 2 ^ 54))) := by ring
    _ ≤ 2 * (2 ^ 53 * (2 ^ 53 * round53 (round53 n * m03))) := by
        exact Nat.mul_le_mul_left 2 (Nat.mul_le_mul_left _ (Nat.mul_le_mul_left _ hB))
    _ ≤ 2 * (2 ^ 53 * ((2 ^ 53 + 1) * (round53 n * m03))) := by
        exact Nat.mul_le_mul_left 2 (Nat.mul_le_mul_left _ h2)
    _ = 2 * ((2 ^ 53 + 1) * m03 * (2 ^ 53 * round53 n)) := by ring
    _ ≤ 2 * ((2 ^ 53 + 1) * m03 * ((2 ^ 53 + 1) * n)) := by
        exact Nat.mul_le_mul_left 2 (Nat.mul_le_mul_left _ h1)
    _ = 2 * ((2 ^ 53 + 1) * ((2 ^ 53 + 1) * m03)) * n := by ring
    _ ≤ 2 ^ 53 * (2 ^ 53 * 2 ^ 54) * n := Nat.mul_le_mul_right n hkey
    _ = 2 ^ 53 * 2 ^ 53 * 2 ^ 54 * n := by ring

theorem numProxyDb_le (n : ℕ) (h3 : 3 ≤ n) : numProxyOf n + numDbOf n ≤ n := by
  by_cases h8 : n < 8
  · unfold numProxyOf numDbOf
    interval_cases n <;> decide
  · push_neg at h8
    have hx : pyInt02 n ≤ n / 4 := pyInt02_le n
    have hy : pyInt03 n ≤ n / 2 := pyInt03_le n
    have h1 : numProxyOf n ≤ n / 4 := max_le (by omega) hx
    have h2 : numDbOf n ≤ n / 2 := max_le (by omega) hy
    omega

/-! ## Shuffle is a permutation -/

theorem swapL_perm [DecidableEq α] (l : List α) (i j : ℕ) : (swapL l i j).Perm l := by
  unfold swapL
  cases hi : l.get? i with
  | none => exact List.Perm.refl l
  | some a =>
    cases hj : l.get? j with
    | none => exact List.Perm.refl l
    | some b =>
      rw [List.get?_eq_getElem?] at hi hj
      obtain ⟨hil, hia⟩ := List.getElem?_eq_some_iff.mp hi
      obtain ⟨hjl, hjb⟩ := List.getElem?_eq_some_iff.mp hj
      rw [List.perm_iff_count]
      intro x
      have h1 : j < (l.set i b).length := by rw [List.length_set]; exact hjl
      rw [List.count_set _ _ _ _ h1, List.count_set _ _ _ _ hil]
      rw [List.getElem_set]
      by_cases hij : i = j
      · subst hij
        rw [if_pos rfl]
        have hab : a = b := by rw [← hia, ← hjb]
        subst hab
        have hmem : a ∈ l := hia ▸ List.getElem_mem hil
        rw [hia]
        have hcount : (a == x) = true → 1 ≤ l.count x := by
          intro hax
          have : a = x := by simpa using hax
          subst this
          exact List.count_pos_iff.mpr hmem
        split_ifs with h1
        · have := hcount h1
          omega
        · omega
      · rw [if_neg hij, hjb, hia]
        have hmema : a ∈ l := hia ▸ List.getElem_mem hil
        have hmemb : b ∈ l := hjb ▸ List.getElem_mem hjl
        have hca : (a == x) = true → 1 ≤ l.count x := by
          intro hax
          have : a = x := by simpa using hax
          subst this
          exact List.count_pos_iff.mpr hmema
        have hcb : (b == x) = true → 1 ≤ l.count x := by
          intro hbx
          have : b = x := by simpa using hbx
          subst this
          exact List.count_pos_iff.mpr hmemb
        split_ifs with h1 h2 h2
        · have := hca h1
          have := hcb h2
          omega
        · have := hca h1
          omega
        · have := hcb h2
          omega
        · omega

theorem shuffleL_perm [DecidableEq α] (l : List α) (s : RState) :
    (shuffleL l s).1.Perm l := by
  unfold shuffleL
  suffices hgen : ∀ (idxs : List ℕ) (acc : List α × RState), acc.1.Perm l →
      (idxs.foldl (fun acc i =>
        let (j, s1) := randBelow (i + 1) acc.2
        (swapL acc.1 i j, s1)) acc).1.Perm l by
    exact hgen _ (l, s) (List.Perm.refl l)
  intro idxs
  induction idxs with
  | nil => intro acc h; exact h
  | cons i rest ih =>
    intro acc h
    exact ih _ ((swapL_perm acc.1 i _).trans h)

/-! ## Connection-map lemmas -/

theorem cGet_cUpdate_self (c : Conns) (k : String) (v : List String) :
    cGet (cUpdate c k v) k = v := by
  unfold cGet cUpdate
  rw [dictGet_dictInsert_self]
  rfl

theorem cGet_cUpdate_ne (c : Conns) (k nm : String) (v : List String) (h : nm ≠ k) :
    cGet (cUpdate c k v) nm = cGet c nm := by
  unfold cGet cUpdate
  rw [dictGet_dictInsert_ne _ _ _ _ h]

theorem cGet_cUpdate (c : Conns) (k nm : String) (v : List String) :
    cGet (cUpdate c k v) nm = if nm = k then v else cGet c nm := by
  by_cases h : nm = k
  · rw [if_pos h, h, cGet_cUpdate_self]
  · rw [if_neg h, cGet_cUpdate_ne _ _ _ _ h]

theorem listChoice_mem (l : List String) (s : RState) (h : l ≠ []) :
    (listChoice l s).1 ∈ l := by
  unfold listChoice randBelow
  have hlen : 0 < l.length := List.length_pos.mpr h
  have hlt : s.ints s.ii % l.length < l.length := Nat.mod_lt _ hlen
  simp only [List.getD_eq_getElem?_getD]
  rw [List.getElem?_eq_getElem hlt]
  exact List.getElem_mem hlt

/-! ## findLongestPath lemmas -/

/-- The running maximum computed by the fold inside find_longest_path. -/
def maxOver (l : List String) (f : String → ℕ) : ℕ :=
  l.foldl (fun acc x => max acc (f x)) 0

theorem foldl_max_le (l : List String) (f : String → ℕ) (B : ℕ) :
    ∀ a, a ≤ B → (∀ x ∈ l, f x ≤ B) → l.foldl (fun acc x => max acc (f x)) a ≤ B := by
  induction l with
  | nil => intro a ha _; exact ha
  | cons y ys ih =>
    intro a ha hall
    exact ih _ (max_le ha (hall y (List.mem_cons_self y ys)))
      (fun x hx => hall x (List.mem_cons_of_mem y hx))

theorem maxOver_le (l : List String) (f : String → ℕ) (B : ℕ)
    (h : ∀ x ∈ l, f x ≤ B) : maxOver l f ≤ B :=
  foldl_max_le l f B 0 (Nat.zero_le B) h

theorem le_foldl_max (l : List String) (f : String → ℕ) :
    ∀ a, a ≤ l.foldl (fun acc x => max acc (f x)) a := by
  induction l with
  | nil => intro a; exact le_refl a
  | cons y ys ih => intro a; exact le_trans (le_max_left a (f y)) (ih (max a (f y)))

theorem foldl_max_ge (l : List String) (f : String → ℕ) :
    ∀ a x, x ∈ l → f x ≤ l.foldl (fun acc x => max acc (f x)) a := by
  induction l with
  | nil => intro a x hx; cases hx
  | cons y ys ih =>
    intro a x hx
    rcases List.mem_cons.mp hx with rfl | hmem
    · exact le_trans (le_max_right a (f x)) (le_foldl_max ys f (max a (f x)))
    · exact ih _ x hmem

theorem le_maxOver (l : List String) (f : String → ℕ) (x : String) (h : x ∈ l) :
    f x ≤ maxOver l f :=
  foldl_max_ge l f 0 x h

theorem findLongestPath_succ (c : Conns) (start : String) (visited : List String)
    (fuel : ℕ) :
    findLongestPath c start visited (fuel + 1) =
      if start ∈ visited then 0
      else if cGet c start = [] then 1
      else maxOver (cGet c start) (fun t => findLongestPath c t (start :: visited) fuel)
        + 1 := rfl

theorem findLongestPath_pos (c : Conns) (start : String) (visited : List String)
    (fuel : ℕ) (hvis : start ∉ visited) :
    1 ≤ findLongestPath c start visited (fuel + 1) := by
  rw [findLongestPath_succ, if_neg hvis]
  split <;> omega

theorem findLongestPath_mono_conns (c2 c1 : Conns)
    (hsub : ∀ nm x, x ∈ cGet c2 nm → x ∈ cGet c1 nm) :
    ∀ (fuel : ℕ) (start : String) (visited : List String),
      findLongestPath c2 start visited fuel ≤ findLongestPath c1 start visited fuel := by
  intro fuel
  induction fuel with
  | zero => intro start visited; exact le_refl 0
  | succ fuel ih =>
    intro start visited
    rw [findLongestPath_succ, findLongestPath_succ]
    by_cases hv : start ∈ visited
    · rw [if_pos hv, if_pos hv]
    · rw [if_neg hv, if_neg hv]
      by_cases h2 : cGet c2 start = []
      · rw [if_pos h2]
        split
        · omega
        next h1 =>
          have := findLongestPath_pos c1 start visited fuel hv
          omega
      · rw [if_neg h2]
        have h1 : cGet c1 start ≠ [] := by
          obtain ⟨x, hx⟩ := List.exists_mem_of_ne_nil _ h2
          exact List.ne_nil_of_mem (hsub start x hx)
        rw [if_neg h1]
        have hle : maxOver (cGet c2 start)
            (fun t => findLongestPath c2 t (start :: visited) fuel) ≤
            maxOver (cGet c1 start)
            (fun t => findLongestPath c1 t (start :: visited) fuel) := by
          apply maxOver_le
          intro x hx
          calc findLongestPath c2 x (start :: visited) fuel
              ≤ findLongestPath c1 x (start :: visited) fuel := ih x (start :: visited)
            _ ≤ maxOver (cGet c1 start)
                (fun t => findLongestPath c1 t (start :: visited) fuel) :=
                le_maxOver _ (fun t => findLongestPath c1 t (start :: visited) fuel)
                  x (hsub start x hx)
        omega

theorem findLongestPath_fuel_mono (c : Conns) :
    ∀ (f1 f2 : ℕ), f1 ≤ f2 → ∀ (start : String) (visited : List String),
      findLongestPath c start visited f1 ≤ findLongestPath c start visited f2 := by
  intro f1
  induction f1 with
  | zero => intro f2 _ start visited; exact Nat.zero_le _
  | succ f1 ih =>
    intro f2 hle start visited
    obtain ⟨f2p, rfl⟩ : ∃ k, f2 = k + 1 := ⟨f2 - 1, by omega⟩
    rw [findLongestPath_succ, findLongestPath_succ]
    by_cases hv : start ∈ visited
    · rw [if_pos hv, if_pos hv]
    · rw [if_neg hv, if_neg hv]
      by_cases h0 : cGet c start = []
      · rw [if_pos h0, if_pos h0]
      · rw [if_neg h0, if_neg h0]
        have : maxOver (cGet c start) (fun t => findLongestPath c t (start :: visited) f1)
            ≤ maxOver (cGet c start)
              (fun t => findLongestPath c t (start :: visited) f2p) := by
          apply maxOver_le
          intro x hx
          calc findLongestPath c x (start :: visited) f1
              ≤ findLongestPath c x (start :: visited) f2p := ih f2p (by omega) x _
            _ ≤ maxOver (cGet c start)
                (fun t => findLongestPath c t (start :: visited) f2p) :=
                le_maxOver _ (fun t => findLongestPath c t (start :: visited) f2p) x hx
        omega

/-! ## Depth-limitation stage: structure and convergence -/

theorem depthStep_cGet_ne (d fuel : ℕ) (c : Conns) (svc t : String) (h : t ≠ svc) :
    cGet (depthStep d fuel c svc) t = cGet c t := by
  unfold depthStep
  split
  · rfl
  · split
    · exact cGet_cUpdate_ne _ _ _ _ h
    · rfl

theorem depthStep_subset (d fuel : ℕ) (c : Conns) (svc : String) :
    ∀ t x, x ∈ cGet (depthStep d fuel c svc) t → x ∈ cGet c t := by
  intro t x
  unfold depthStep
  split
  · exact id
  · split
    · rw [cGet_cUpdate]
      split
      next ht =>
        intro hx
        rw [ht]
        exact List.mem_of_mem_tail hx
      · exact id
    · exact id

theorem foldl_depthStep_subset (d fuel : ℕ) (L : List String) :
    ∀ (c : Conns) (t : String) (x : String),
      x ∈ cGet (L.foldl (depthStep d fuel) c) t → x ∈ cGet c t := by
  induction L with
  | nil => intro c t x; exact id
  | cons o os ih =>
    intro c t x hx
    exact depthStep_subset d fuel c o t x (ih (depthStep d fuel c o) t x hx)

theorem foldl_depthStep_cGet_not_mem (d fuel : ℕ) (L : List String) :
    ∀ (c : Conns) (s : String), s ∉ L →
      cGet (L.foldl (depthStep d fuel) c) s = cGet c s := by
  induction L with
  | nil => intro c s _; rfl
  | cons o os ih =>
    intro c s hs
    rw [List.foldl_cons, ih _ s (fun h => hs (List.mem_cons_of_mem o h)),
      depthStep_cGet_ne d fuel c o s (fun h => hs (h ▸ List.mem_cons_self o os))]

theorem depthPass_subset (d fuel : ℕ) (order : List String) (c : Conns) :
    ∀ t x, x ∈ cGet (depthPass d fuel order c) t → x ∈ cGet c t :=
  foldl_depthStep_subset d fuel order c

theorem depthPass_violation (d fuel : ℕ) (order : List String) (c : Conns) (s : String)
    (hnd : order.Nodup) (hs : s ∈ order) (hfuel : 1 ≤ fuel) (hd : 1 ≤ d)
    (hviol : d < findLongestPath (depthPass d fuel order c) s [] fuel) :
    (cGet (depthPass d fuel order c) s).length + 1 = (cGet c s).length ∧
      d < findLongestPath c s [] fuel := by
  obtain ⟨u, v, rfl⟩ := List.append_of_mem hs
  rw [List.nodup_append] at hnd
  have hsv : s ∉ v := by
    have := hnd.2.1
    rw [List.nodup_cons] at this
    exact this.1
  have hsu : s ∉ u := fun hmem => hnd.2.2 hmem (List.mem_cons_self s v)
  have hpass : depthPass d fuel (u ++ s :: v) c =
      v.foldl (depthStep d fuel) (depthStep d fuel (u.foldl (depthStep d fuel) c) s) := by
    unfold depthPass
    rw [List.foldl_append, List.foldl_cons]
  set c1 := u.foldl (depthStep d fuel) c with hc1
  have hc1s : cGet c1 s = cGet c s := foldl_depthStep_cGet_not_mem d fuel u c s hsu
  have hfin : cGet (depthPass d fuel (u ++ s :: v) c) s =
      cGet (depthStep d fuel c1 s) s := by
    rw [hpass]
    exact foldl_depthStep_cGet_not_mem d fuel v _ s hsv
  have hviol2 : d < findLongestPath (depthStep d fuel c1 s) s [] fuel := by
    have hmono := findLongestPath_mono_conns
      (depthPass d fuel (u ++ s :: v) c) (depthStep d fuel c1 s)
      (by
        intro t x hx
        rw [hpass] at hx
        exact foldl_depthStep_subset d fuel v _ t x hx) fuel s []
    omega
  have hsubu : ∀ t x, x ∈ cGet c1 t → x ∈ cGet c t := foldl_depthStep_subset d fuel u c
  by_cases hcase : cGet c1 s ≠ [] ∧ d < findLongestPath c1 s [] fuel
  · have hstep : cGet (depthStep d fuel c1 s) s = (cGet c1 s).tail := by
      unfold depthStep
      rw [if_neg (by exact hcase.1), if_pos hcase.2, cGet_cUpdate_self]
    have hlen : (cGet c1 s).tail.length + 1 = (cGet c1 s).length := by
      have hpos : 0 < (cGet c1 s).length := List.length_pos.mpr hcase.1
      rw [List.length_tail]
      omega
    constructor
    · rw [hfin, hstep, ← hc1s]
      exact hlen
    · exact lt_of_lt_of_le hcase.2 (findLongestPath_mono_conns c1 c hsubu fuel s [])
  · have hstep : depthStep d fuel c1 s = c1 := by
      unfold depthStep
      push_neg at hcase
      split
      · rfl
      next hne =>
        rw [if_neg]
        push_neg
        exact hcase hne
    rw [hstep] at hviol2
    by_cases hnil : cGet c1 s = []
    · exfalso
      obtain ⟨f, rfl⟩ : ∃ k, fuel = k + 1 := ⟨fuel - 1, by omega⟩
      have h1 : findLongestPath c1 s [] (f + 1) = 1 := by
        rw [findLongestPath_succ, if_neg (List.not_mem_nil s), if_pos hnil]
      omega
    · exact absurd ⟨hnil, hviol2⟩ hcase

theorem depthIter_violation (d fuel : ℕ) (order : List String) (s : String)
    (hnd : order.Nodup) (hs : s ∈ order) (hfuel : 1 ≤ fuel) (hd : 1 ≤ d) :
    ∀ (k : ℕ) (c : Conns),
      d < findLongestPath ((depthPass d fuel order)^[k] c) s [] fuel →
      (cGet ((depthPass d fuel order)^[k] c) s).length + k = (cGet c s).length ∧
        d < findLongestPath c s [] fuel := by
  intro k
  induction k with
  | zero =>
    intro c hviol
    simp only [Function.iterate_zero, id_eq] at hviol ⊢
    exact ⟨rfl, hviol⟩
  | succ k ih =>
    intro c hviol
    rw [Function.iterate_succ_apply] at hviol
    obtain ⟨hlen, hv1⟩ := ih (depthPass d fuel order c) hviol
    obtain ⟨hlen2, hv2⟩ := depthPass_violation d fuel order c s hnd hs hfuel hd hv1
    rw [Function.iterate_succ_apply]
    exact ⟨by omega, hv2⟩

theorem foldl_const_iterate {α β : Type} (f : α → α) (l : List β) :
    ∀ c : α, l.foldl (fun acc _ => f acc) c = f^[l.length] c := by
  induction l with
  | nil => intro c; rfl
  | cons b bs ih =>
    intro c
    rw [List.foldl_cons, ih (f c), List.length_cons, Function.iterate_succ_apply]

theorem depthBound_iterate (d fuel : ℕ) (order : List String) (c : Conns) :
    depthBound d fuel order c = (depthPass d fuel order)^[10 - d] c := by
  unfold depthBound
  rw [foldl_const_iterate]
  congr 1
  simp

theorem depthBound_flp_le (d fuel B : ℕ) (order : List String) (c : Conns) (s : String)
    (hnd : order.Nodup) (hs : s ∈ order) (hfuel : 1 ≤ fuel) (hd : 1 ≤ d)
    (hB : (cGet c s).length ≤ B) (hiter : B ≤ 10 - d) :
    findLongestPath (depthBound d fuel order c) s [] fuel ≤ d := by
  by_contra hgt
  push_neg at hgt
  rw [depthBound_iterate] at hgt
  obtain ⟨hlen, -⟩ := depthIter_violation d fuel order s hnd hs hfuel hd (10 - d) c hgt
  have hempty : cGet ((depthPass d fuel order)^[10 - d] c) s = [] :=
    List.length_eq_zero.mp (by omega)
  obtain ⟨f, rfl⟩ : ∃ k, fuel = k + 1 := ⟨fuel - 1, by omega⟩
  have h1 : findLongestPath ((depthPass d (f + 1) order)^[10 - d] c) s [] (f + 1) = 1 := by
    rw [findLongestPath_succ, if_neg (List.not_mem_nil s), if_pos hempty]
  omega

/-! ## C3: structure of the depth-bounding stage -/

/-- A 12-service chain whose longest forward path is 12, used to exhibit the
missing pruning at max_depth = 10. -/
def chainConns : Conns :=
  [("n0", ["n1"]), ("n1", ["n2"]), ("n2", ["n3"]), ("n3", ["n4"]), ("n4", ["n5"]),
   ("n5", ["n6"]), ("n6", ["n7"]), ("n7", ["n8"]), ("n8", ["n9"]), ("n9", ["n10"]),
   ("n10", ["n11"]), ("n11", [])]

/-- The service iteration order for the chain. -/
def chainOrder : List String :=
  ["n0", "n1", "n2", "n3", "n4", "n5", "n6", "n7", "n8", "n9", "n10", "n11"]

/-- C3 counterexample: the claim says the stage is capped at 10 passes and that for
every valid max_depth some pruning passes can run; in fact the loop is
range(max_depth, 10), so at the valid value max_depth = 10 zero passes run: the
stage returns the connections unchanged even on a topology whose longest path is 12
and needs pruning. -/
theorem c3_counterexample_zero_passes_at_ten :
    depthBound 10 13 chainOrder chainConns = chainConns ∧
      10 < findLongestPath chainConns "n0" [] 13 :=
  ⟨rfl, by decide⟩

/-- C3 amended: the depth-bounding stage performs exactly 10 - max_depth passes
(none once max_depth is 10 or more, so pruning cannot run there), and in each pass
a service, processed in all_services order, whose longest forward path (depth-first
with a per-branch visited set) still exceeds max_depth after the pass had its first
outgoing edge removed by the pass and already exceeded max_depth before it. -/
theorem c3_amended_pass_structure (maxDepth fuel : ℕ) (order : List String)
    (c : Conns) (s : String) (hnd : order.Nodup) (hs : s ∈ order)
    (hfuel : 1 ≤ fuel) (hd : 1 ≤ maxDepth) :
    depthBound maxDepth fuel order c = (depthPass maxDepth fuel order)^[10 - maxDepth] c
    ∧ (10 ≤ maxDepth → depthBound maxDepth fuel order c = c)
    ∧ (maxDepth < findLongestPath (depthPass maxDepth fuel order c) s [] fuel →
        (cGet (depthPass maxDepth fuel order c) s).length + 1 = (cGet c s).length ∧
          maxDepth < findLongestPath c s [] fuel) := by
  refine ⟨depthBound_iterate _ _ _ _, ?_,
    depthPass_violation _ _ _ _ _ hnd hs hfuel hd⟩
  intro h10
  rw [depthBound_iterate]
  have hz : 10 - maxDepth = 0 := by omega
  rw [hz]
  rfl

theorem c3_witness :
    (depthBound 2 3 ["a"] [("a", ["b"])] = (depthPass 2 3 ["a"])^[10 - 2] [("a", ["b"])]
    ∧ (10 ≤ 2 → depthBound 2 3 ["a"] [("a", ["b"])] = [("a", ["b"])])
    ∧ (2 < findLongestPath (depthPass 2 3 ["a"] [("a", ["b"])]) "a" [] 3 →
        (cGet (depthPass 2 3 ["a"] [("a", ["b"])]) "a").length + 1 =
          (cGet [("a", ["b"])] "a").length ∧
          2 < findLongestPath [("a", ["b"])] "a" [] 3)) :=
  c3_amended_pass_structure 2 3 ["a"] [("a", ["b"])] "a" (by decide) (by decide)
    (by norm_num) (by norm_num)

/-! ## Fuel stability of findLongestPath on closed connection maps -/

theorem filter_impl_length_le (l : List String) (p q : String → Bool)
    (h : ∀ x, p x = true → q x = true) :
    (l.filter p).length ≤ (l.filter q).length := by
  induction l with
  | nil => exact le_refl 0
  | cons y ys ih =>
    by_cases hp : p y = true
    · rw [List.filter_cons_of_pos hp, List.filter_cons_of_pos (h y hp)]
      simpa using ih
    · rw [List.filter_cons_of_neg (by simpa using hp)]
      by_cases hq : q y = true
      · rw [List.filter_cons_of_pos hq]
        simp only [List.length_cons]
        omega
      · rw [List.filter_cons_of_neg (by simpa using hq)]
        exact ih

theorem filter_cons_visited_lt (names visited : List String) (s : String)
    (hs : s ∈ names) (hv : s ∉ visited) :
    (names.filter (fun x => decide (x ∉ s :: visited))).length <
      (names.filter (fun x => decide (x ∉ visited))).length := by
  induction names with
  | nil => cases hs
  | cons y ys ih =>
    by_cases hys : y = s
    · subst hys
      rw [List.filter_cons_of_neg (by simp), List.filter_cons_of_pos (by simpa using hv)]
      have hle := filter_impl_length_le ys (fun x => decide (x ∉ y :: visited))
        (fun x => decide (x ∉ visited))
        (fun x hx => by
          simp only [decide_eq_true_eq] at hx ⊢
          exact fun hmem => hx (List.mem_cons_of_mem y hmem))
      simp only [List.length_cons]
      omega
    · have hcond : (decide (y ∉ s :: visited)) = (decide (y ∉ visited)) := by
        by_cases hyv : y ∈ visited
        · simp [hyv, List.mem_cons]
        · simp [hyv, List.mem_cons, hys]
      have hsys : s ∈ ys := by
        rcases List.mem_cons.mp hs with h | h
        · exact absurd h.symm hys
        · exact h
      simp only [List.filter_cons, hcond]
      split
      · simp only [List.length_cons]
        exact Nat.succ_lt_succ (ih hsys)
      · exact ih hsys

theorem maxOver_congr (l : List String) (f g : String → ℕ)
    (h : ∀ x ∈ l, f x = g x) : maxOver l f = maxOver l g := by
  unfold maxOver
  suffices hgen : ∀ a, l.foldl (fun acc x => max acc (f x)) a =
      l.foldl (fun acc x => max acc (g x)) a by exact hgen 0
  induction l with
  | nil => intro a; rfl
  | cons y ys ih =>
    intro a
    rw [List.foldl_cons, List.foldl_cons, h y (List.mem_cons_self y ys)]
    exact ih (fun x hx => h x (List.mem_cons_of_mem y hx)) _

theorem findLongestPath_stable (c : Conns) (names : List String)
    (hT : ∀ nm x, x ∈ cGet c nm → x ∈ names) :
    ∀ (m : ℕ) (visited : List String) (s : String) (f1 f2 : ℕ),
      (names.filter (fun x => decide (x ∉ visited))).length = m →
      s ∈ names → m < f1 → m < f2 →
      findLongestPath c s visited f1 = findLongestPath c s visited f2 := by
  intro m
  induction m using Nat.strong_induction_on with
  | _ m ih =>
    intro visited s f1 f2 hm hs hf1 hf2
    obtain ⟨a, rfl⟩ : ∃ k, f1 = k + 1 := ⟨f1 - 1, by omega⟩
    obtain ⟨b, rfl⟩ : ∃ k, f2 = k + 1 := ⟨f2 - 1, by omega⟩
    rw [findLongestPath_succ, findLongestPath_succ]
    by_cases hv : s ∈ visited
    · rw [if_pos hv, if_pos hv]
    · rw [if_neg hv, if_neg hv]
      by_cases h0 : cGet c s = []
      · rw [if_pos h0, if_pos h0]
      · rw [if_neg h0, if_neg h0]
        congr 1
        apply maxOver_congr
        intro x hx
        have hm2lt : (names.filter (fun y => decide (y ∉ s :: visited))).length < m := by
          rw [← hm]
          exact filter_cons_visited_lt names visited s hs hv
        exact ih _ hm2lt (s :: visited) x a b rfl (hT s x hx) (by omega) (by omega)

/-! ## Invariants of the topology pipeline stages -/

/-- Every connection target lies among the web and database names. -/
def TarInv (numServices : ℕ) (c : Conns) : Prop :=
  ∀ nm x, x ∈ cGet c nm → x ∈ webNamesOf numServices ++ dbNamesOf numServices

/-- Every connection list respects the width cap. -/
def WidInv (maxWidth : ℕ) (c : Conns) : Prop :=
  ∀ nm, (cGet c nm).length ≤ maxWidth

/-- Every bound key is a generated service name. -/
def KeyInv (numServices : ℕ) (c : Conns) : Prop :=
  ∀ p ∈ c, p.1 ∈ allNamesOf numServices

theorem foldl_pres_fst {β : Type} (P : Conns → Prop)
    (step : Conns × RState → β → Conns × RState) :
    ∀ (L : List β), (∀ cs b, b ∈ L → P cs.1 → P (step cs b).1) →
      ∀ cs : Conns × RState, P cs.1 → P (L.foldl step cs).1 := by
  intro L
  induction L with
  | nil => intro _ cs h; exact h
  | cons b bs ih =>
    intro hstep cs h
    exact ih (fun cs2 b2 hb2 => hstep cs2 b2 (List.mem_cons_of_mem b hb2)) _
      (hstep cs b (List.mem_cons_self b bs) h)

theorem foldl_pres_conns {β : Type} (P : Conns → Prop) (step : Conns → β → Conns) :
    ∀ (L : List β), (∀ c b, b ∈ L → P c → P (step c b)) →
      ∀ c : Conns, P c → P (L.foldl step c) := by
  intro L
  induction L with
  | nil => intro _ c h; exact h
  | cons b bs ih =>
    intro hstep c h
    exact ih (fun c2 b2 hb2 => hstep c2 b2 (List.mem_cons_of_mem b hb2)) _
      (hstep c b (List.mem_cons_self b bs) h)

theorem key_cUpdate (names : List String) (c : Conns) (k : String) (v : List String)
    (hc : ∀ p ∈ c, p.1 ∈ names) (hk : k ∈ names) :
    ∀ p ∈ cUpdate c k v, p.1 ∈ names := by
  intro p hp
  unfold cUpdate dictInsert at hp
  split at hp
  · obtain ⟨q, hq, rfl⟩ := List.mem_map.mp hp
    split
    · exact hk
    · exact hc q hq
  · rcases List.mem_append.mp hp with h | h
    · exact hc p h
    · rcases List.mem_singleton.mp h with rfl
      exact hk

theorem cGet_eq_nil_of_not_key (names : List String) (c : Conns) (nm : String)
    (hc : ∀ p ∈ c, p.1 ∈ names) (hnm : nm ∉ names) : cGet c nm = [] := by
  induction c with
  | nil => rfl
  | cons p ps ih =>
    unfold cGet dictGet
    split
    next hp =>
      exact absurd (hp ▸ hc p (List.mem_cons_self p ps)) hnm
    · exact ih (fun q hq => hc q (List.mem_cons_of_mem p hq))

theorem tar_cUpdate (numServices : ℕ) (c : Conns) (k : String) (v : List String)
    (hc : TarInv numServices c)
    (hv : ∀ x ∈ v, x ∈ webNamesOf numServices ++ dbNamesOf numServices) :
    TarInv numServices (cUpdate c k v) := by
  intro nm x hx
  rw [cGet_cUpdate] at hx
  split at hx
  · exact hv x hx
  · exact hc nm x hx

theorem wid_cUpdate (maxWidth : ℕ) (c : Conns) (k : String) (v : List String)
    (hc : WidInv maxWidth c) (hv : v.length ≤ maxWidth) :
    WidInv maxWidth (cUpdate c k v) := by
  intro nm
  rw [cGet_cUpdate]
  split
  · exact hv
  · exact hc nm

theorem wireProxy_pres (numServices maxWidth : ℕ) (cs : Conns × RState) (p : String)
    (hp : p ∈ proxyNamesOf numServices)
    (h : TarInv numServices cs.1 ∧ WidInv maxWidth cs.1 ∧ KeyInv numServices cs.1) :
    TarInv numServices (wireProxy (webNamesOf numServices) maxWidth cs p).1 ∧
    WidInv maxWidth (wireProxy (webNamesOf numServices) maxWidth cs p).1 ∧
    KeyInv numServices (wireProxy (webNamesOf numServices) maxWidth cs p).1 := by
  obtain ⟨ht, hw, hk⟩ := h
  unfold wireProxy
  dsimp only
  refine ⟨tar_cUpdate _ _ _ _ ht ?_, wid_cUpdate _ _ _ _ hw ?_, key_cUpdate _ _ _ _ hk ?_⟩
  · intro x hx
    have hmem := (shuffleL_perm (webNamesOf numServices) cs.2).mem_iff.mp
      (List.take_subset _ _ hx)
    exact List.mem_append_left _ hmem
  · rw [List.length_take]
    exact le_trans (min_le_left _ _) (min_le_left _ _)
  · exact List.mem_append_left _ (List.mem_append_left _ hp)

theorem wireWeb_pres (numServices maxWidth : ℕ) (cs : Conns × RState) (iw : ℕ × String)
    (hw2 : iw.2 ∈ webNamesOf numServices)
    (h : TarInv numServices cs.1 ∧ WidInv maxWidth cs.1 ∧ KeyInv numServices cs.1) :
    TarInv numServices
      (wireWeb (webNamesOf numServices) (dbNamesOf numServices) maxWidth cs iw).1 ∧
    WidInv maxWidth
      (wireWeb (webNamesOf numServices) (dbNamesOf numServices) maxWidth cs iw).1 ∧
    KeyInv numServices
      (wireWeb (webNamesOf numServices) (dbNamesOf numServices) maxWidth cs iw).1 := by
  obtain ⟨ht, hwd, hk⟩ := h
  have hcommon : ∀ (wl : List String) (s1 : RState),
      (∀ x ∈ wl, x ∈ webNamesOf numServices) →
      TarInv numServices (cUpdate cs.1 iw.2
        ((shuffleL (wl ++ dbNamesOf numServices) s1).1.take
          (min maxWidth (shuffleL (wl ++ dbNamesOf numServices) s1).1.length))) ∧
      WidInv maxWidth (cUpdate cs.1 iw.2
        ((shuffleL (wl ++ dbNamesOf numServices) s1).1.take
          (min maxWidth (shuffleL (wl ++ dbNamesOf numServices) s1).1.length))) ∧
      KeyInv numServices (cUpdate cs.1 iw.2
        ((shuffleL (wl ++ dbNamesOf numServices) s1).1.take
          (min maxWidth (shuffleL (wl ++ dbNamesOf numServices) s1).1.length))) := by
    intro wl s1 hwl
    refine ⟨tar_cUpdate _ _ _ _ ht ?_, wid_cUpdate _ _ _ _ hwd ?_,
      key_cUpdate _ _ _ _ hk ?_⟩
    · intro x hx
      have hmem := (shuffleL_perm (wl ++ dbNamesOf numServices) s1).mem_iff.mp
        (List.take_subset _ _ hx)
      rcases List.mem_append.mp hmem with h1 | h1
      · exact List.mem_append_left _ (hwl x h1)
      · exact List.mem_append_right _ h1
    · rw [List.length_take]
      exact le_trans (min_le_left _ _) (min_le_left _ _)
    · exact List.mem_append_left _ (List.mem_append_right _ hw2)
  unfold wireWeb
  dsimp only
  split
  · split
    · exact hcommon _ _ (fun x hx => List.drop_subset _ _ hx)
    · exact hcommon [] _ (fun x hx => absurd hx (List.not_mem_nil x))
  · exact hcommon [] _ (fun x hx => absurd hx (List.not_mem_nil x))

theorem conns_nil_inv (numServices maxWidth : ℕ) :
    TarInv numServices ([] : Conns) ∧ WidInv maxWidth ([] : Conns) ∧
      KeyInv numServices ([] : Conns) := by
  refine ⟨?_, ?_, ?_⟩
  · intro nm x hx
    simp [cGet, dictGet] at hx
  · intro nm
    simp [cGet, dictGet]
  · intro p hp
    exact absurd hp (List.not_mem_nil p)

theorem topoWiring_pres (numServices maxWidth : ℕ) (s : RState) :
    TarInv numServices (topoWiring numServices maxWidth s).1 ∧
    WidInv maxWidth (topoWiring numServices maxWidth s).1 ∧
    KeyInv numServices (topoWiring numServices maxWidth s).1 := by
  unfold topoWiring
  dsimp only
  have h0 := conns_nil_inv numServices maxWidth
  have h1 := foldl_pres_fst
    (fun c => TarInv numServices c ∧ WidInv maxWidth c ∧ KeyInv numServices c)
    (wireProxy (webNamesOf numServices) maxWidth) (proxyNamesOf numServices)
    (fun cs b hb hP => wireProxy_pres numServices maxWidth cs b hb hP)
    (([] : Conns), s) h0
  have h2 := foldl_pres_fst
    (fun c => TarInv numServices c ∧ WidInv maxWidth c ∧ KeyInv numServices c)
    (wireWeb (webNamesOf numServices) (dbNamesOf numServices) maxWidth)
    (webNamesOf numServices).enum
    (fun cs b hb hP => wireWeb_pres numServices maxWidth cs b
      (List.snd_mem_of_mem_enum hb) hP)
    _ h1
  refine foldl_pres_conns
    (fun c => TarInv numServices c ∧ WidInv maxWidth c ∧ KeyInv numServices c)
    (fun c d => cUpdate c d []) (dbNamesOf numServices)
    (fun c b hb hP => ?_) _ h2
  obtain ⟨ht, hw, hk⟩ := hP
  refine ⟨tar_cUpdate _ _ _ _ ht ?_, wid_cUpdate _ _ _ _ hw ?_, key_cUpdate _ _ _ _ hk ?_⟩
  · intro x hx
    exact absurd hx (List.not_mem_nil x)
  · simp
  · exact List.mem_append_right _ hb

theorem fold_cUpdate_nil_not_mem (ds : List String) :
    ∀ (c : Conns) (dn : String), dn ∉ ds →
      cGet (ds.foldl (fun c d => cUpdate c d []) c) dn = cGet c dn := by
  induction ds with
  | nil => intro c dn _; rfl
  | cons d rest ih =>
    intro c dn hdn
    rw [List.foldl_cons, ih _ dn (fun h => hdn (List.mem_cons_of_mem d h)),
      cGet_cUpdate_ne _ _ _ _ (fun h => hdn (by rw [h]; exact List.mem_cons_self d rest))]

theorem db_fold_nil (ds : List String) (hnd : ds.Nodup) :
    ∀ (c : Conns) (dn : String), dn ∈ ds →
      cGet (ds.foldl (fun c d => cUpdate c d []) c) dn = [] := by
  induction ds with
  | nil => intro c dn h; cases h
  | cons d rest ih =>
    intro c dn hdn
    rw [List.nodup_cons] at hnd
    rw [List.foldl_cons]
    rcases List.mem_cons.mp hdn with rfl | hmem
    · rw [fold_cUpdate_nil_not_mem rest _ dn hnd.1, cGet_cUpdate_self]
    · exact ih hnd.2 _ dn hmem

theorem topoWiring_db_nil (numServices maxWidth : ℕ) (s : RState)
    (hnd : (dbNamesOf numServices).Nodup) (dn : String)
    (hdn : dn ∈ dbNamesOf numServices) :
    cGet (topoWiring numServices maxWidth s).1 dn = [] := by
  unfold topoWiring
  dsimp only
  exact db_fold_nil (dbNamesOf numServices) hnd _ dn hdn

theorem depthStep_pres (numServices d fuel : ℕ) (c : Conns) (svc : String)
    (hsvc : svc ∈ allNamesOf numServices)
    (h : TarInv numServices c ∧ KeyInv numServices c) :
    TarInv numServices (depthStep d fuel c svc) ∧
      KeyInv numServices (depthStep d fuel c svc) := by
  constructor
  · intro nm x hx
    exact h.1 nm x (depthStep_subset d fuel c svc nm x hx)
  · unfold depthStep
    split
    · exact h.2
    · split
      · exact key_cUpdate _ _ _ _ h.2 hsvc
      · exact h.2

theorem varAddTargets_sub (numServices : ℕ) (c : Conns) (svc : String) :
    ∀ x ∈ varAddTargets (proxyNamesOf numServices) (webNamesOf numServices)
      (dbNamesOf numServices) c svc,
      x ∈ webNamesOf numServices ++ dbNamesOf numServices := by
  intro x hx
  unfold varAddTargets at hx
  split at hx
  · exact List.mem_append_left _ (List.mem_filter.mp hx).1
  · split at hx
    · exact (List.mem_filter.mp hx).1
    · cases hx

theorem varStep_pres (numServices maxWidth : ℕ) (vb : ℚ) (cs : Conns × RState)
    (svc : String) (hsvc : svc ∈ allNamesOf numServices)
    (h : TarInv numServices cs.1 ∧ KeyInv numServices cs.1) :
    TarInv numServices (varStep vb maxWidth (proxyNamesOf numServices)
      (webNamesOf numServices) (dbNamesOf numServices) cs svc).1 ∧
    KeyInv numServices (varStep vb maxWidth (proxyNamesOf numServices)
      (webNamesOf numServices) (dbNamesOf numServices) cs svc).1 := by
  have hadd : ∀ (c : Conns), TarInv numServices c ∧ KeyInv numServices c →
      ∀ (v : List String),
      (∀ x ∈ v, x ∈ webNamesOf numServices ++ dbNamesOf numServices) →
      TarInv numServices (cUpdate c svc v) ∧ KeyInv numServices (cUpdate c svc v) :=
    fun c hc v hv => ⟨tar_cUpdate _ _ _ _ hc.1 hv, key_cUpdate _ _ _ _ hc.2 hsvc⟩
  unfold varStep
  dsimp only
  split
  next hu1 =>
    split
    next hav =>
      set c1 := cUpdate cs.1 svc
        (cGet cs.1 svc ++ [(listChoice (varAddTargets (proxyNamesOf numServices)
          (webNamesOf numServices) (dbNamesOf numServices) cs.1 svc)
          (randFloat cs.2).2).1]) with hc1
      have h1 : TarInv numServices c1 ∧ KeyInv numServices c1 := by
        refine hadd cs.1 h _ ?_
        intro x hx
        rcases List.mem_append.mp hx with h2 | h2
        · exact h.1 svc x h2
        · rcases List.mem_singleton.mp h2 with rfl
          exact varAddTargets_sub numServices cs.1 svc _ (listChoice_mem _ _ hav.1)
      split
      next hu2 =>
        exact hadd c1 h1 _ (fun x hx => h1.1 svc x (List.eraseIdx_subset _ _ hx))
      · exact h1
    · split
      next hu2 =>
        exact hadd cs.1 h _ (fun x hx => h.1 svc x (List.eraseIdx_subset _ _ hx))
      · exact h
  · split
    next hu2 =>
      exact hadd cs.1 h _ (fun x hx => h.1 svc x (List.eraseIdx_subset _ _ hx))
    · exact h

theorem depthBound_pres (numServices d fuel : ℕ) (order : List String) (c : Conns)
    (horder : ∀ o ∈ order, o ∈ allNamesOf numServices)
    (h : TarInv numServices c ∧ KeyInv numServices c) :
    TarInv numServices (depthBound d fuel order c) ∧
      KeyInv numServices (depthBound d fuel order c) := by
  unfold depthBound
  refine foldl_pres_conns
    (fun cc => TarInv numServices cc ∧ KeyInv numServices cc)
    (fun acc _ => depthPass d fuel order acc) _
    (fun c2 b _ hP => ?_) _ h
  unfold depthPass
  exact foldl_pres_conns
    (fun cc => TarInv numServices cc ∧ KeyInv numServices cc)
    (depthStep d fuel) order
    (fun c3 svc hsvc hP2 => depthStep_pres numServices d fuel c3 svc (horder svc hsvc) hP2)
    c2 hP

theorem topoPipeline_c5_pres (numServices maxWidth : ℕ) (vb : ℚ)
    (order : List String) (horder : ∀ o ∈ order, o ∈ allNamesOf numServices)
    (cs : Conns × RState) (h : TarInv numServices cs.1 ∧ KeyInv numServices cs.1) :
    TarInv numServices ((if 0 < vb then
      order.foldl (varStep vb maxWidth (proxyNamesOf numServices)
        (webNamesOf numServices) (dbNamesOf numServices)) cs else cs)).1 ∧
    KeyInv numServices ((if 0 < vb then
      order.foldl (varStep vb maxWidth (proxyNamesOf numServices)
        (webNamesOf numServices) (dbNamesOf numServices)) cs else cs)).1 := by
  split
  · refine ⟨?_, ?_⟩ <;>
    · have := foldl_pres_fst
        (fun c => TarInv numServices c ∧ KeyInv numServices c)
        (varStep vb maxWidth (proxyNamesOf numServices) (webNamesOf numServices)
          (dbNamesOf numServices)) order
        (fun cs2 svc hsvc hP => varStep_pres numServices maxWidth vb cs2 svc
          (horder svc hsvc) hP) cs h
      first
      | exact this.1
      | exact this.2
  · exact h

theorem configs_closure (numServices : ℕ) (c : Conns) (hc : TarInv numServices c) :
    ∀ cfg ∈ ((proxyNamesOf numServices).map
        (fun p => (⟨p, "proxy", cGet c p⟩ : ServiceConfig)) ++
      (webNamesOf numServices).map (fun w => (⟨w, "web", cGet c w⟩ : ServiceConfig)) ++
      (dbNamesOf numServices).map (fun d => (⟨d, "database", []⟩ : ServiceConfig))),
      ∀ t ∈ cfg.connections,
        ∃ cfg2 ∈ ((proxyNamesOf numServices).map
            (fun p => (⟨p, "proxy", cGet c p⟩ : ServiceConfig)) ++
          (webNamesOf numServices).map
            (fun w => (⟨w, "web", cGet c w⟩ : ServiceConfig)) ++
          (dbNamesOf numServices).map
            (fun d => (⟨d, "database", []⟩ : ServiceConfig))),
          cfg2.name = t := by
  intro cfg hcfg t ht
  have htmem : t ∈ webNamesOf numServices ++ dbNamesOf numServices := by
    rcases List.mem_append.mp hcfg with hcfg2 | hdb
    · rcases List.mem_append.mp hcfg2 with hpx | hwb
      · obtain ⟨p, hp, rfl⟩ := List.mem_map.mp hpx
        exact hc p t ht
      · obtain ⟨w, hw, rfl⟩ := List.mem_map.mp hwb
        exact hc w t ht
    · obtain ⟨d, hd, rfl⟩ := List.mem_map.mp hdb
      cases ht
  rcases List.mem_append.mp htmem with hweb | hdb
  · exact ⟨⟨t, "web", cGet c t⟩, List.mem_append_left _ (List.mem_append_right _
      (List.mem_map_of_mem _ hweb)), rfl⟩
  · exact ⟨⟨t, "database", []⟩, List.mem_append_right _
      (List.mem_map_of_mem _ hdb), rfl⟩

theorem topoPipeline_closure (numServices maxDepth maxWidth : ℕ) (vb : ℚ) (s : RState) :
    ∀ cfg ∈ (topoPipeline numServices maxDepth maxWidth vb s).1,
      ∀ t ∈ cfg.connections,
        ∃ cfg2 ∈ (topoPipeline numServices maxDepth maxWidth vb s).1, cfg2.name = t := by
  have horder : ∀ o ∈ (shuffleL (allNamesOf numServices) s).1, o ∈ allNamesOf numServices :=
    fun o ho => (shuffleL_perm _ _).mem_iff.mp ho
  have hwire := topoWiring_pres numServices maxWidth (shuffleL (allNamesOf numServices) s).2
  have hc4 := depthBound_pres numServices maxDepth (numServices + 1)
    (shuffleL (allNamesOf numServices) s).1
    (topoWiring numServices maxWidth (shuffleL (allNamesOf numServices) s).2).1
    horder ⟨hwire.1, hwire.2.2⟩
  have hc5 := topoPipeline_c5_pres numServices maxWidth vb
    (shuffleL (allNamesOf numServices) s).1 horder
    (depthBound maxDepth (numServices + 1) (shuffleL (allNamesOf numServices) s).1
      (topoWiring numServices maxWidth (shuffleL (allNamesOf numServices) s).2).1,
     (topoWiring numServices maxWidth (shuffleL (allNamesOf numServices) s).2).2)
    hc4
  unfold topoPipeline
  dsimp only
  exact configs_closure numServices _ hc5.1

theorem topoPipeline_counts (numServices maxDepth maxWidth : ℕ) (vb : ℚ) (s : RState) :
    (topoPipeline numServices maxDepth maxWidth vb s).1.length =
      numProxyOf numServices + numWebOf numServices + numDbOf numServices ∧
    (topoPipeline numServices maxDepth maxWidth vb s).1.countP
      (fun c => c.service_type == "proxy") = numProxyOf numServices ∧
    (topoPipeline numServices maxDepth maxWidth vb s).1.countP
      (fun c => c.service_type == "database") = numDbOf numServices ∧
    (topoPipeline numServices maxDepth maxWidth vb s).1.countP
      (fun c => c.service_type == "web") = numWebOf numServices := by
  unfold topoPipeline
  dsimp only
  refine ⟨?_, ?_, ?_, ?_⟩ <;>
    simp only [List.countP_append, List.countP_map, Function.comp_def,
      List.length_append, List.length_map, List.length_range,
      proxyNamesOf, webNamesOf, dbNamesOf] <;>
    simp [List.countP_true, List.countP_false]

set_option maxRecDepth 100000 in
/-- C5 counterexample: for num_services N = 6755399441055749 the generator's proxy
count is max(1, int(N * 0.2)) computed in binary64, which is N / 5 + 1 because the
float product N * 0.2 rounds upward across an integer; the claimed formula
"max(1, 20 percent of N)" = max(1, N / 5) is one less.  The count of proxy-typed
services in the returned list therefore differs from the claimed value at this N. -/
theorem c5_counterexample_float_proxy_count :
    ∃ p, generateRandomTopology 6755399441055749 2 3 2 (3 / 10)
        ⟨fun _ => 0, fun _ => 0, fun _ => 0, 0, 0, 0⟩ = .ok p ∧
      p.1.countP (fun c => c.service_type == "proxy") ≠ max 1 (6755399441055749 / 5) := by
  have hgen : generateRandomTopology 6755399441055749 2 3 2 (3 / 10)
      ⟨fun _ => 0, fun _ => 0, fun _ => 0, 0, 0, 0⟩ =
      .ok (topoPipeline 6755399441055749 2 3 (3 / 10)
        ⟨fun _ => 0, fun _ => 0, fun _ => 0, 0, 0, 0⟩) := by
    unfold generateRandomTopology
    rw [if_neg (by omega), if_neg (by omega)]
  refine ⟨_, hgen, ?_⟩
  rw [(topoPipeline_counts 6755399441055749 2 3 (3 / 10) _).2.1]
  decide

/-- C5 amended: for every num_services N >= 3, max_depth >= 2 and every random
stream, generate_random_topology succeeds and returns exactly
max(1, int(N * 0.2)) + web-remainder + max(1, int(N * 0.3)) = N services (the two
int() computed in binary64, embedded as pyInt02 / pyInt03), among them at least one
proxy-typed and at least one database-typed service, with proxy count
max(1, int(N * 0.2)), database count max(1, int(N * 0.3)), web count the remainder;
and every name in any returned service's connections names a service of the list. -/
theorem c5_amended_topology_counts (N maxDepth maxWidth nsg : ℕ) (vb : ℚ) (st : RState)
    (h3 : 3 ≤ N) (h2 : 2 ≤ maxDepth) :
    ∃ cfgs st2, generateRandomTopology N maxDepth maxWidth nsg vb st = .ok (cfgs, st2) ∧
      cfgs.length = N ∧
      cfgs.countP (fun c => c.service_type == "proxy") = max 1 (pyInt02 N) ∧
      cfgs.countP (fun c => c.service_type == "database") = max 1 (pyInt03 N) ∧
      cfgs.countP (fun c => c.service_type == "web") =
        N - max 1 (pyInt02 N) - max 1 (pyInt03 N) ∧
      (∃ cfg ∈ cfgs, cfg.service_type = "proxy") ∧
      (∃ cfg ∈ cfgs, cfg.service_type = "database") ∧
      ∀ cfg ∈ cfgs, ∀ t ∈ cfg.connections, ∃ cfg2 ∈ cfgs, cfg2.name = t := by
  have hgen : generateRandomTopology N maxDepth maxWidth nsg vb st =
      .ok (topoPipeline N maxDepth maxWidth vb st) := by
    unfold generateRandomTopology
    rw [if_neg (by omega), if_neg (by omega)]
  obtain ⟨hlen, hp, hd, hw⟩ := topoPipeline_counts N maxDepth maxWidth vb st
  have hpd := numProxyDb_le N h3
  refine ⟨(topoPipeline N maxDepth maxWidth vb st).1,
    (topoPipeline N maxDepth maxWidth vb st).2, hgen, ?_, hp, hd, hw, ?_, ?_,
    topoPipeline_closure N maxDepth maxWidth vb st⟩
  · rw [hlen]
    unfold numWebOf at *
    unfold numProxyOf numDbOf at *
    omega
  · have hpos : 0 < (topoPipeline N maxDepth maxWidth vb st).1.countP
        (fun c => c.service_type == "proxy") := by
      rw [hp]
      exact Nat.lt_of_lt_of_le Nat.zero_lt_one (le_max_left _ _)
    obtain ⟨c, hc, hcp⟩ := List.countP_pos_iff.mp hpos
    exact ⟨c, hc, by simpa using hcp⟩
  · have hpos : 0 < (topoPipeline N maxDepth maxWidth vb st).1.countP
        (fun c => c.service_type == "database") := by
      rw [hd]
      exact Nat.lt_of_lt_of_le Nat.zero_lt_one (le_max_left _ _)
    obtain ⟨c, hc, hcp⟩ := List.countP_pos_iff.mp hpos
    exact ⟨c, hc, by simpa using hcp⟩

/-- Witness for c5_amended_topology_counts at N = 5, max_depth = 2 and the zero
stream. -/
theorem c5_witness :
    3 ≤ 5 ∧ 2 ≤ 2 ∧
    ∃ cfgs st2, generateRandomTopology 5 2 3 2 0
        ⟨fun _ => 0, fun _ => 0, fun _ => 0, 0, 0, 0⟩ = .ok (cfgs, st2) ∧
      cfgs.length = 5 ∧
      cfgs.countP (fun c => c.service_type == "proxy") = max 1 (pyInt02 5) ∧
      cfgs.countP (fun c => c.service_type == "database") = max 1 (pyInt03 5) ∧
      cfgs.countP (fun c => c.service_type == "web") =
        5 - max 1 (pyInt02 5) - max 1 (pyInt03 5) ∧
      (∃ cfg ∈ cfgs, cfg.service_type = "proxy") ∧
      (∃ cfg ∈ cfgs, cfg.service_type = "database") ∧
      ∀ cfg ∈ cfgs, ∀ t ∈ cfg.connections, ∃ cfg2 ∈ cfgs, cfg2.name = t :=
  ⟨by decide, by decide,
    c5_amended_topology_counts 5 2 3 2 0 ⟨fun _ => 0, fun _ => 0, fun _ => 0, 0, 0, 0⟩
      (by decide) (by decide)⟩

/-! ## C2: the depth bound under the default variability -/

theorem findLongestPath_congr (c1 c2 : Conns) (h : ∀ nm, cGet c1 nm = cGet c2 nm) :
    ∀ (fuel : ℕ) (start : String) (visited : List String),
      findLongestPath c1 start visited fuel = findLongestPath c2 start visited fuel := by
  intro fuel
  induction fuel with
  | zero => intro s v; rfl
  | succ fuel ih =>
    intro s v
    rw [findLongestPath_succ, findLongestPath_succ, h s]
    by_cases hv : s ∈ v
    · rw [if_pos hv, if_pos hv]
    · rw [if_neg hv, if_neg hv]
      split
      · rfl
      · congr 1
        exact maxOver_congr _ _ _ (fun x _ => ih x (s :: v))

theorem depthStep_nil_pres (d fuel : ℕ) (c : Conns) (svc nm : String)
    (h : cGet c nm = []) : cGet (depthStep d fuel c svc) nm = [] := by
  by_cases he : nm = svc
  · subst he
    unfold depthStep
    rw [if_pos h]
    exact h
  · rw [depthStep_cGet_ne d fuel c svc nm he]
    exact h

theorem depthBound_nil_pres (d fuel : ℕ) (order : List String) (c : Conns) (nm : String)
    (h : cGet c nm = []) : cGet (depthBound d fuel order c) nm = [] := by
  unfold depthBound
  refine foldl_pres_conns (fun cc => cGet cc nm = [])
    (fun acc _ => depthPass d fuel order acc) _ (fun c2 b _ h2 => ?_) _ h
  unfold depthPass
  exact foldl_pres_conns (fun cc => cGet cc nm = []) (depthStep d fuel) order
    (fun c3 svc _ h3 => depthStep_nil_pres d fuel c3 svc nm h3) c2 h2

/-- The shuffled service order of the five-service default run. -/
def ord5 (st : RState) : List String := (shuffleL (allNamesOf 5) st).1

/-- The wired connections of the five-service default run. -/
def c3of (st : RState) : Conns := (topoWiring 5 3 (shuffleL (allNamesOf 5) st).2).1

/-- The connections after the depth-bounding stage of the five-service run. -/
def c4of (st : RState) : Conns := depthBound 2 6 (ord5 st) (c3of st)

set_option maxRecDepth 100000 in
theorem allNamesOf5_eq :
    allNamesOf 5 = ["proxy-1", "service-1", "service-2", "service-3", "db-1"] := by
  decide

set_option maxRecDepth 100000 in
theorem prNames5_eq : proxyNamesOf 5 = ["proxy-1"] := by decide

set_option maxRecDepth 100000 in
theorem webNames5_eq : webNamesOf 5 = ["service-1", "service-2", "service-3"] := by
  decide

set_option maxRecDepth 100000 in
theorem dbNames5_eq : dbNamesOf 5 = ["db-1"] := by decide

theorem topoPipeline5_zero_eq (st : RState) :
    (topoPipeline 5 2 3 0 st).1 =
      [⟨"proxy-1", "proxy", cGet (c4of st) "proxy-1"⟩,
       ⟨"service-1", "web", cGet (c4of st) "service-1"⟩,
       ⟨"service-2", "web", cGet (c4of st) "service-2"⟩,
       ⟨"service-3", "web", cGet (c4of st) "service-3"⟩,
       ⟨"db-1", "database", []⟩] := by
  unfold topoPipeline c4of ord5 c3of
  dsimp only
  rw [if_neg (lt_irrefl (0 : ℚ))]
  rw [prNames5_eq, webNames5_eq, dbNames5_eq]
  rfl

theorem c4of_inv (st : RState) : TarInv 5 (c4of st) ∧ KeyInv 5 (c4of st) := by
  have horder : ∀ o ∈ ord5 st, o ∈ allNamesOf 5 :=
    fun o ho => (shuffleL_perm _ _).mem_iff.mp ho
  have hwire := topoWiring_pres 5 3 (shuffleL (allNamesOf 5) st).2
  exact depthBound_pres 5 2 6 (ord5 st) (c3of st) horder ⟨hwire.1, hwire.2.2⟩

set_option maxRecDepth 100000 in
theorem c4of_db_nil (st : RState) : cGet (c4of st) "db-1" = [] := by
  refine depthBound_nil_pres 2 6 (ord5 st) (c3of st) "db-1" ?_
  refine topoWiring_db_nil 5 3 _ ?_ "db-1" ?_
  · rw [dbNames5_eq]
    decide
  · rw [dbNames5_eq]
    decide

theorem cGet_topoConns5 (st : RState) (nm : String) :
    cGet (topoConns (topoPipeline 5 2 3 0 st).1) nm = cGet (c4of st) nm := by
  rw [topoPipeline5_zero_eq]
  unfold topoConns
  dsimp only [List.map]
  simp only [cGet, dictGet]
  split_ifs with h1 h2 h3 h4 h5
  · subst h1; rfl
  · subst h2; rfl
  · subst h3; rfl
  · subst h4; rfl
  · subst h5
    exact (c4of_db_nil st).symm
  · refine ((cGet_eq_nil_of_not_key (allNamesOf 5) (c4of st) nm (c4of_inv st).2 ?_)).symm
    rw [allNamesOf5_eq]
    intro hmem
    simp only [List.mem_cons, List.not_mem_nil, or_false] at hmem
    rcases hmem with h | h | h | h | h
    · exact h1 h.symm
    · exact h2 h.symm
    · exact h3 h.symm
    · exact h4 h.symm
    · exact h5 h.symm

set_option maxRecDepth 100000 in
theorem c4of_flp6_le (st : RState) (nm : String) (hnm : nm ∈ allNamesOf 5) :
    findLongestPath (c4of st) nm [] 6 ≤ 2 := by
  refine depthBound_flp_le 2 6 3 (ord5 st) (c3of st) nm ?_ ?_ (by omega) (by omega)
    ?_ (by omega)
  · exact ((shuffleL_perm (allNamesOf 5) st).nodup_iff).mpr (by rw [allNamesOf5_eq]; decide)
  · exact (shuffleL_perm (allNamesOf 5) st).mem_iff.mpr hnm
  · exact (topoWiring_pres 5 3 _).2.1 nm

set_option maxRecDepth 100000 in
theorem pipeline5_flp_le (st : RState) (nm : String) (hnm : nm ∈ allNamesOf 5)
    (fuel : ℕ) :
    findLongestPath (topoConns (topoPipeline 5 2 3 0 st).1) nm [] fuel ≤ 2 := by
  rw [findLongestPath_congr _ _ (cGet_topoConns5 st) fuel nm []]
  by_cases hf : fuel ≤ 6
  · exact le_trans (findLongestPath_fuel_mono (c4of st) fuel 6 hf nm []) (c4of_flp6_le st nm hnm)
  · have hT : ∀ k x, x ∈ cGet (c4of st) k → x ∈ allNamesOf 5 := by
      intro k x hx
      have := (c4of_inv st).1 k x hx
      unfold allNamesOf
      rcases List.mem_append.mp this with h | h
      · exact List.mem_append_left _ (List.mem_append_right _ h)
      · exact List.mem_append_right _ h
    have hm : ((allNamesOf 5).filter (fun x => decide (x ∉ ([] : List String)))).length = 5 := by
      rw [allNamesOf5_eq]
      decide
    rw [findLongestPath_stable (c4of st) (allNamesOf 5) hT 5 [] nm fuel 6 hm hnm
      (by omega) (by omega)]
    exact c4of_flp6_le st nm hnm

set_option maxRecDepth 100000 in
set_option maxHeartbeats 2000000 in
/-- C2 counterexample: at the default remaining parameters (max_width 3,
num_service_groups 2, connection_variability 0.3) the variability stage runs after
the depth-bounding passes and can append fresh edges, so the claimed bound fails:
for the exhibited random stream, generate_random_topology(5, 2) returns a topology
in which service-1 has longest forward path 3 > 2 under the generator's own DFS
rule (fuel 6 exceeds the 5 services, and by fuel monotonicity any larger fuel gives
a path at least as long). -/
theorem c2_counterexample_default_variability_exceeds_depth :
    ∃ p, generateRandomTopology 5 2 3 2 (3 / 10)
        ⟨fun i => [0, 0, 0, 1/2, 1/2, 1/2, 1/2, 1/2, 1/2, 1/2, 1/2, 1/2].getD i 0,
         fun _ => 0, fun _ => 0, 0, 0, 0⟩ = .ok p ∧
      ∃ cfg ∈ p.1, 2 < findLongestPath (topoConns p.1) cfg.name [] 6 := by
  have hgen : generateRandomTopology 5 2 3 2 (3 / 10)
      ⟨fun i => [0, 0, 0, 1/2, 1/2, 1/2, 1/2, 1/2, 1/2, 1/2, 1/2, 1/2].getD i 0,
       fun _ => 0, fun _ => 0, 0, 0, 0⟩ =
      .ok (topoPipeline 5 2 3 (3 / 10)
        ⟨fun i => [0, 0, 0, 1/2, 1/2, 1/2, 1/2, 1/2, 1/2, 1/2, 1/2, 1/2].getD i 0,
         fun _ => 0, fun _ => 0, 0, 0, 0⟩) := by
    unfold generateRandomTopology
    rw [if_neg (by omega), if_neg (by omega)]
  refine ⟨_, hgen, ?_⟩
  with_unfolding_all decide

/-- C2 amended: with the variability stage disabled (connection_variability 0, the
non-default value under which the depth-bounding passes are the last stage that
touches the connections), generate_random_topology(5, 2) satisfies the claim: for
every random stream the call succeeds and every service of the returned topology
has longest forward path at most 2 under the generator's own depth-first
per-branch-visited-set rule, at every recursion fuel. -/
theorem c2_amended_depth_bound_at_zero_variability (st : RState) :
    ∃ cfgs st2, generateRandomTopology 5 2 3 2 0 st = .ok (cfgs, st2) ∧
      ∀ cfg ∈ cfgs, ∀ fuel,
        findLongestPath (topoConns cfgs) cfg.name [] fuel ≤ 2 := by
  have hgen : generateRandomTopology 5 2 3 2 0 st = .ok (topoPipeline 5 2 3 0 st) := by
    unfold generateRandomTopology
    rw [if_neg (by omega), if_neg (by omega)]
  refine ⟨(topoPipeline 5 2 3 0 st).1, (topoPipeline 5 2 3 0 st).2, ?_, ?_⟩
  · rw [hgen, Prod.mk.eta]
  intro cfg hcfg fuel
  refine pipeline5_flp_le st cfg.name ?_ fuel
  rw [topoPipeline5_zero_eq] at hcfg
  rw [allNamesOf5_eq]
  simp only [List.mem_cons, List.not_mem_nil, or_false] at hcfg
  rcases hcfg with rfl | rfl | rfl | rfl | rfl <;> simp

/-- Witness for c2_amended_depth_bound_at_zero_variability at the zero stream. -/
theorem c2_witness :
    ∃ cfgs st2, generateRandomTopology 5 2 3 2 0
        ⟨fun _ => 0, fun _ => 0, fun _ => 0, 0, 0, 0⟩ = .ok (cfgs, st2) ∧
      ∀ cfg ∈ cfgs, ∀ fuel, findLongestPath (topoConns cfgs) cfg.name [] fuel ≤ 2 :=
  c2_amended_depth_bound_at_zero_variability ⟨fun _ => 0, fun _ => 0, fun _ => 0, 0, 0, 0⟩
